import Mathlib

/-!
Verification development for the streaming-response aggregator of
FerriteChatter (`src/web.rs`).  Rust strings are modelled as `List Char`,
byte streams as `List Nat` (each element one byte), and `serde_json::Value`
as the mutual inductive `Json` below.  The two protocol adapters
(`stream_responses` and `stream_chat_model`) are embedded as pure state
machines over an `AggState` record; the caller-supplied sink is modelled by
recording every forwarded fragment in the `sent` field.
-/

namespace Ferrite

abbrev Str := List Char

/-- Unicode code points with the `White_Space` property, as used by Rust's
`char::is_whitespace` (and hence `str::trim`). -/
def isRustWhitespace (c : Char) : Bool :=
  let n := c.toNat
  (0x09 ≤ n && n ≤ 0x0D) || n = 0x20 || n = 0x85 || n = 0xA0 || n = 0x1680 ||
  (0x2000 ≤ n && n ≤ 0x200A) || n = 0x2028 || n = 0x2029 || n = 0x202F ||
  n = 0x205F || n = 0x3000

/-- Rust `str::trim`: remove leading and trailing whitespace. -/
def rustTrim (s : Str) : Str :=
  (s.dropWhile isRustWhitespace).reverse.dropWhile isRustWhitespace |>.reverse

/-- Rust `str::replace("\r\n", "\n")`: left-to-right, non-overlapping. -/
def replaceCRLF : Str → Str
  | [] => []
  | a :: t =>
    if a = '\r' then
      match t with
      | b :: t' => if b = '\n' then '\n' :: replaceCRLF t' else a :: replaceCRLF (b :: t')
      | [] => [a]
    else a :: replaceCRLF t

/-- Rust `str::find("\n\n")` followed by the split used in the drain loop:
returns the event before the first blank-line delimiter and the remainder
after it. -/
def splitNN : Str → Option (Str × Str)
  | [] => none
  | a :: t =>
    if a = '\n' then
      match t with
      | b :: t' =>
        if b = '\n' then some ([], t')
        else (splitNN (b :: t')).map (fun p => (a :: p.1, p.2))
      | [] => none
    else (splitNN t).map (fun p => (a :: p.1, p.2))

/-- Rust `str::lines`: split at `\n`, stripping a `\r` that directly precedes
a `\n`; a trailing line terminator produces no final empty line. -/
def linesOf (s : Str) : List Str :=
  let rec go (cur : Str) : Str → List Str
    | [] => if cur = [] then [] else [cur.reverse]
    | '\n' :: rest =>
        (match cur with
         | '\r' :: cur' => cur'.reverse
         | _ => cur.reverse) :: go [] rest
    | c :: rest => go (c :: cur) rest
  go [] s

/-- Rust `str::strip_prefix`. -/
def stripPrefixStr (pre s : Str) : Option Str :=
  if pre.isPrefixOf s then some (s.drop pre.length) else none

/-! ## UTF-8 (Rust `String::from_utf8_lossy` and encoding) -/

def isCont (b : Nat) : Bool := 0x80 ≤ b && b ≤ 0xBF

def fffd : Char := Char.ofNat 0xFFFD

/-- Lower bound for the first continuation byte, which depends on the lead
byte (UTF-8 shortest-form and surrogate restrictions). -/
def contLo (b : Nat) : Nat := if b = 0xE0 then 0xA0 else if b = 0xF0 then 0x90 else 0x80

def contHi (b : Nat) : Nat := if b = 0xED then 0x9F else if b = 0xF4 then 0x8F else 0xBF

/-- `String::from_utf8_lossy` as a function `List Nat → List Char`,
substituting `U+FFFD` for each maximal invalid subpart. -/
def utf8Decode : List Nat → List Char
  | [] => []
  | b :: rest =>
    if b ≤ 0x7F then Char.ofNat b :: utf8Decode rest
    else if 0xC2 ≤ b && b ≤ 0xDF then
      match rest with
      | c1 :: r =>
        if isCont c1 then Char.ofNat ((b - 0xC0) * 64 + (c1 - 0x80)) :: utf8Decode r
        else fffd :: utf8Decode (c1 :: r)
      | [] => [fffd]
    else if 0xE0 ≤ b && b ≤ 0xEF then
      match rest with
      | c1 :: r1 =>
        if contLo b ≤ c1 && c1 ≤ contHi b then
          match r1 with
          | c2 :: r2 =>
            if isCont c2 then
              Char.ofNat ((b - 0xE0) * 4096 + (c1 - 0x80) * 64 + (c2 - 0x80)) ::
                utf8Decode r2
            else fffd :: utf8Decode (c2 :: r2)
          | [] => [fffd]
        else fffd :: utf8Decode (c1 :: r1)
      | [] => [fffd]
    else if 0xF0 ≤ b && b ≤ 0xF4 then
      match rest with
      | c1 :: r1 =>
        if contLo b ≤ c1 && c1 ≤ contHi b then
          match r1 with
          | c2 :: r2 =>
            if isCont c2 then
              match r2 with
              | c3 :: r3 =>
                if isCont c3 then
                  Char.ofNat ((b - 0xF0) * 262144 + (c1 - 0x80) * 4096 +
                    (c2 - 0x80) * 64 + (c3 - 0x80)) :: utf8Decode r3
                else fffd :: utf8Decode (c3 :: r3)
              | [] => [fffd]
            else fffd :: utf8Decode (c2 :: r2)
          | [] => [fffd]
        else fffd :: utf8Decode (c1 :: r1)
      | [] => [fffd]
    else fffd :: utf8Decode rest

/-- Whether the bytes are a valid UTF-8 encoding (no lossy substitution
would occur). -/
def isValidUtf8 : List Nat → Bool
  | [] => true
  | b :: rest =>
    if b ≤ 0x7F then isValidUtf8 rest
    else if 0xC2 ≤ b && b ≤ 0xDF then
      match rest with
      | c1 :: r => isCont c1 && isValidUtf8 r
      | [] => false
    else if 0xE0 ≤ b && b ≤ 0xEF then
      match rest with
      | c1 :: r1 =>
        if contLo b ≤ c1 && c1 ≤ contHi b then
          match r1 with
          | c2 :: r2 => isCont c2 && isValidUtf8 r2
          | [] => false
        else false
      | [] => false
    else if 0xF0 ≤ b && b ≤ 0xF4 then
      match rest with
      | c1 :: r1 =>
        if contLo b ≤ c1 && c1 ≤ contHi b then
          match r1 with
          | c2 :: r2 =>
            if isCont c2 then
              match r2 with
              | c3 :: r3 => isCont c3 && isValidUtf8 r3
              | [] => false
            else false
          | [] => false
        else false
      | [] => false
    else false

/-- UTF-8 encoding of one scalar value (used to build concrete byte inputs). -/
def utf8EncodeChar (c : Char) : List Nat :=
  let n := c.toNat
  if n ≤ 0x7F then [n]
  else if n ≤ 0x7FF then [0xC0 + n / 64, 0x80 + n % 64]
  else if n ≤ 0xFFFF then
    [0xE0 + n / 4096, 0x80 + (n / 64) % 64, 0x80 + n % 64]
  else
    [0xF0 + n / 262144, 0x80 + (n / 4096) % 64, 0x80 + (n / 64) % 64,
     0x80 + n % 64]

def utf8Encode (s : Str) : List Nat := s.flatMap utf8EncodeChar

def strBytes (s : String) : List Nat := utf8Encode s.toList

/-! ## JSON values (`serde_json::Value`, object maps kept key-sorted like
`BTreeMap`; numbers restricted to integers, which covers every payload the
aggregator's logic inspects) -/

mutual
inductive Json where
  | null : Json
  | bool (b : Bool) : Json
  | num (n : Int) : Json
  | str (s : Str) : Json
  | arr (xs : JsonList) : Json
  | obj (fs : JsonFields) : Json
inductive JsonList where
  | nil : JsonList
  | cons (hd : Json) (tl : JsonList) : JsonList
inductive JsonFields where
  | fnil : JsonFields
  | fcons (k : Str) (v : Json) (tl : JsonFields) : JsonFields
end

def JsonFields.get : JsonFields → Str → Option Json
  | .fnil, _ => none
  | .fcons k v tl, key => if k = key then some v else tl.get key

/-- `Value::get` with a string index: field lookup on objects, `None`
otherwise. -/
def Json.get : Json → Str → Option Json
  | .obj fs, key => fs.get key
  | _, _ => none

/-- `Value::as_str`. -/
def Json.asStr : Json → Option Str
  | .str s => some s
  | _ => none

/-- `Value::as_array` (as the embedded list type). -/
def Json.asArr : Json → Option JsonList
  | .arr xs => some xs
  | _ => none

def Json.isArrOrObj : Json → Bool
  | .arr _ => true
  | .obj _ => true
  | _ => false

def JsonList.toList : JsonList → List Json
  | .nil => []
  | .cons x tl => x :: tl.toList

def JsonList.head? : JsonList → Option Json
  | .nil => none
  | .cons x _ => some x

/-- Byte-order (= code-point-order) lexicographic comparison of Rust
strings, as used by `BTreeMap` keys. -/
def strLt : Str → Str → Bool
  | [], [] => false
  | [], _ :: _ => true
  | _ :: _, [] => false
  | a :: as_, b :: bs => if a.toNat < b.toNat then true
      else if a.toNat = b.toNat then strLt as_ bs else false

/-- `BTreeMap::insert`: replace the value of an existing key in place,
otherwise insert in key order (last duplicate wins during parsing). -/
def JsonFields.insert : JsonFields → Str → Json → JsonFields
  | .fnil, k, v => .fcons k v .fnil
  | .fcons k' v' tl, k, v =>
    if k = k' then .fcons k' v tl
    else if strLt k k' then .fcons k v (.fcons k' v' tl)
    else .fcons k' v' (tl.insert k v)

/-! ### JSON serialization (`serde_json::to_string`, compact) -/

def hexDigit (n : Nat) : Char :=
  if n < 10 then Char.ofNat (48 + n) else Char.ofNat (87 + n)

def escapeChar (c : Char) : Str :=
  if c = '"' then ['\\', '"']
  else if c = '\\' then ['\\', '\\']
  else if c = '\n' then ['\\', 'n']
  else if c = '\r' then ['\\', 'r']
  else if c = '\t' then ['\\', 't']
  else if c.toNat = 8 then ['\\', 'b']
  else if c.toNat = 12 then ['\\', 'f']
  else if c.toNat < 0x20 then
    '\\' :: 'u' :: '0' :: '0' :: hexDigit (c.toNat / 16) :: [hexDigit (c.toNat % 16)]
  else [c]

def quoteStr (s : Str) : Str := '"' :: s.flatMap escapeChar ++ ['"']

def natToStrGo : Nat → Nat → Str
  | 0, _ => []
  | fuel + 1, n =>
    if n < 10 then [Char.ofNat (48 + n)]
    else natToStrGo fuel (n / 10) ++ [Char.ofNat (48 + n % 10)]

def natToStr (n : Nat) : Str := natToStrGo (n + 1) n

def intToStr (n : Int) : Str :=
  if n < 0 then '-' :: natToStr n.natAbs else natToStr n.natAbs

mutual
def Json.toStr : Json → Str
  | .null => ("null").toList
  | .bool true => ("true").toList
  | .bool false => ("false").toList
  | .num n => intToStr n
  | .str s => quoteStr s
  | .arr xs => '[' :: xs.toStrInner ++ [']']
  | .obj fs => '{' :: fs.toStrInner ++ ['}']
def JsonList.toStrInner : JsonList → Str
  | .nil => []
  | .cons x .nil => x.toStr
  | .cons x (.cons y tl) => x.toStr ++ ',' :: JsonList.toStrInner (.cons y tl)
def JsonFields.toStrInner : JsonFields → Str
  | .fnil => []
  | .fcons k v .fnil => quoteStr k ++ ':' :: v.toStr
  | .fcons k v (.fcons k' v' tl) =>
      quoteStr k ++ ':' :: v.toStr ++ ',' :: JsonFields.toStrInner (.fcons k' v' tl)
end

/-! ### JSON parsing (`serde_json::from_str`; fuel-based recursive descent) -/

def jsonWsChar (c : Char) : Bool := c = ' ' || c = '\t' || c = '\n' || c = '\r'

def skipWs (s : Str) : Str := s.dropWhile jsonWsChar

def hexVal (c : Char) : Option Nat :=
  let d := c.toNat
  if 48 ≤ d ∧ d ≤ 57 then some (d - 48)
  else if 97 ≤ d ∧ d ≤ 102 then some (d - 87)
  else if 65 ≤ d ∧ d ≤ 70 then some (d - 55)
  else none

def parseHex4 : Str → Option (Nat × Str)
  | a :: b :: c :: d :: rest => do
    let va ← hexVal a
    let vb ← hexVal b
    let vc ← hexVal c
    let vd ← hexVal d
    pure (va * 4096 + vb * 256 + vc * 16 + vd, rest)
  | _ => none

/-- Parse the body of a JSON string (after the opening quote), handling
escapes and surrogate pairs. -/
def parseStrBody (fuel : Nat) (s : Str) : Option (Str × Str) :=
  match fuel with
  | 0 => none
  | fuel + 1 =>
    match s with
    | [] => none
    | '"' :: rest => some ([], rest)
    | '\\' :: e :: rest =>
      let simpleEsc : Option (Char × Str) :=
        if e = '"' then some ('"', rest)
        else if e = '\\' then some ('\\', rest)
        else if e = '/' then some ('/', rest)
        else if e = 'b' then some (Char.ofNat 8, rest)
        else if e = 'f' then some (Char.ofNat 12, rest)
        else if e = 'n' then some ('\n', rest)
        else if e = 'r' then some ('\r', rest)
        else if e = 't' then some ('\t', rest)
        else none
      (match simpleEsc with
       | some (c, r) => (parseStrBody fuel r).map (fun p => (c :: p.1, p.2))
       | none =>
         if e = 'u' then
           match parseHex4 rest with
           | some (n, r1) =>
             if 0xD800 ≤ n && n ≤ 0xDBFF then
               match r1 with
               | '\\' :: 'u' :: r2 =>
                 match parseHex4 r2 with
                 | some (m, r3) =>
                   if 0xDC00 ≤ m && m ≤ 0xDFFF then
                     let cp := 0x10000 + (n - 0xD800) * 1024 + (m - 0xDC00)
                     (parseStrBody fuel r3).map (fun p => (Char.ofNat cp :: p.1, p.2))
                   else none
                 | none => none
               | _ => none
             else if 0xDC00 ≤ n && n ≤ 0xDFFF then none
             else (parseStrBody fuel r1).map (fun p => (Char.ofNat n :: p.1, p.2))
           | none => none
         else none)
    | c :: rest =>
      if c.toNat < 0x20 then none
      else (parseStrBody fuel rest).map (fun p => (c :: p.1, p.2))

/-- Parse a JSON integer (optional minus, no leading zeros). -/
def parseIntTok (s : Str) : Option (Int × Str) :=
  let core (t : Str) : Option (Nat × Str) :=
    let digs := t.takeWhile Char.isDigit
    let rest := t.dropWhile Char.isDigit
    match digs with
    | [] => none
    | ['0'] => some (0, rest)
    | d :: _ => if d = '0' then none
        else some (digs.foldl (fun a c => a * 10 + (c.toNat - 48)) 0, rest)
  match s with
  | '-' :: t => (core t).map (fun p => (-(p.1 : Int), p.2))
  | t => (core t).map (fun p => ((p.1 : Int), p.2))

mutual
def parseValue (fuel : Nat) (s : Str) : Option (Json × Str) :=
  match fuel with
  | 0 => none
  | fuel + 1 =>
    match skipWs s with
    | 'n' :: 'u' :: 'l' :: 'l' :: rest => some (.null, rest)
    | 't' :: 'r' :: 'u' :: 'e' :: rest => some (.bool true, rest)
    | 'f' :: 'a' :: 'l' :: 's' :: 'e' :: rest => some (.bool false, rest)
    | '"' :: rest => (parseStrBody (rest.length + 1) rest).map (fun p => (.str p.1, p.2))
    | '[' :: rest =>
      (match skipWs rest with
       | ']' :: r => some (.arr .nil, r)
       | _ => (parseArrItems fuel rest).map (fun p => (.arr p.1, p.2)))
    | '{' :: rest =>
      (match skipWs rest with
       | '}' :: r => some (.obj .fnil, r)
       | _ => (parseObjItems fuel rest .fnil).map (fun p => (.obj p.1, p.2)))
    | t => (parseIntTok t).map (fun p => (.num p.1, p.2))

def parseArrItems (fuel : Nat) (s : Str) : Option (JsonList × Str) :=
  match fuel with
  | 0 => none
  | fuel + 1 => do
    let (v, rest) ← parseValue fuel s
    match skipWs rest with
    | ',' :: r => (parseArrItems fuel r).map (fun p => (.cons v p.1, p.2))
    | ']' :: r => some (.cons v .nil, r)
    | _ => none

def parseObjItems (fuel : Nat) (s : Str) (acc : JsonFields) : Option (JsonFields × Str) :=
  match fuel with
  | 0 => none
  | fuel + 1 =>
    match skipWs s with
    | '"' :: rest => do
      let (k, r1) ← parseStrBody (rest.length + 1) rest
      match skipWs r1 with
      | ':' :: r2 => do
        let (v, r3) ← parseValue fuel r2
        let acc := acc.insert k v
        match skipWs r3 with
        | ',' :: r4 => parseObjItems fuel r4 acc
        | '}' :: r4 => some (acc, r4)
        | _ => none
      | _ => none
    | _ => none
end

/-- `serde_json::from_str::<Value>`: the whole input must be one JSON value
with only trailing whitespace. -/
def parseJson (s : Str) : Option Json := do
  let (v, rest) ← parseValue (s.length + 1) s
  if skipWs rest = [] then some v else none

/-! ## Key-string constants used by `web.rs` -/

def kUrl : Str := "url".toList
def kSourceUrl : Str := "source_url".toList
def kHref : Str := "href".toList
def kUri : Str := "uri".toList
def kTitle : Str := "title".toList
def kName : Str := "name".toList
def kSource : Str := "source".toList
def kPageTitle : Str := "page_title".toList
def kType : Str := "type".toList
def kText : Str := "text".toList
def kTextDelta : Str := "text_delta".toList
def kContent : Str := "content".toList
def kMessages : Str := "messages".toList
def kOutput : Str := "output".toList
def kChoices : Str := "choices".toList
def kItems : Str := "items".toList
def kParts : Str := "parts".toList
def kDelta : Str := "delta".toList
def kResponse : Str := "response".toList
def kError : Str := "error".toList
def kMessageKey : Str := "message".toList
def kFinishReason : Str := "finish_reason".toList
def kCitations : Str := "citations".toList
def kAnnotKey : Str := "annotations".toList
def kMetadata : Str := "metadata".toList
def kPartOutputText : Str := "output_text".toList
def kSummaryText : Str := "summary_text".toList
def kRespDeltaTy : Str := "response.output_text.delta".toList
def kRespOutputTextTy : Str := "response.output_text".toList
def kRespCompletedTy : Str := "response.completed".toList
def kRespErrorTy : Str := "response.error".toList
def kRespAnnPrefix : Str := "response.output_text.annotation".toList
def kMessageTy : Str := "message".toList
def kUnknownError : Str := "Unknown error".toList
def kInvalidJson : Str := "Invalid JSON chunk".toList
def kDataPrefix : Str := "data:".toList
def kDoneLit : Str := "[DONE]".toList
def nl1 : Str := ['\n']
def nl2 : Str := ['\n', '\n']

/-! ## Citation harvesting (`collect_citations`) -/

structure Citation where
  url : Str
  title : Option Str
deriving DecidableEq, Repr

/-- The URL-shaped field of an object: first present of
`url`/`source_url`/`href`/`uri`, then `as_str` (a present non-string field
yields no URL and does not fall through to the next name). -/
def urlOf (fs : JsonFields) : Option Str :=
  ((fs.get kUrl).orElse (fun _ => fs.get kSourceUrl)
    |>.orElse (fun _ => fs.get kHref)
    |>.orElse (fun _ => fs.get kUri)) >>= Json.asStr

def titleOf (fs : JsonFields) : Option Str :=
  ((fs.get kTitle).orElse (fun _ => fs.get kName)
    |>.orElse (fun _ => fs.get kSource)
    |>.orElse (fun _ => fs.get kPageTitle)) >>= Json.asStr

mutual
def collect_citations : Json → List Citation → List Str → List Citation × List Str
  | .obj fs, cits, seen =>
    let p : List Citation × List Str :=
      match urlOf fs with
      | some url =>
        if url ∈ seen then (cits, seen)
        else (cits ++ [⟨url, titleOf fs⟩], seen ++ [url])
      | none => (cits, seen)
    ccFields fs p.1 p.2
  | .arr xs, cits, seen => ccList xs cits seen
  | _, cits, seen => (cits, seen)
def ccList : JsonList → List Citation → List Str → List Citation × List Str
  | .nil, cits, seen => (cits, seen)
  | .cons x tl, cits, seen =>
    let p := collect_citations x cits seen
    ccList tl p.1 p.2
def ccFields : JsonFields → List Citation → List Str → List Citation × List Str
  | .fnil, cits, seen => (cits, seen)
  | .fcons _ v tl, cits, seen =>
    let p := collect_citations v cits seen
    ccFields tl p.1 p.2
end

/-! ## Generic text-segment walk (`collect_text_segments`) -/

def tyOk (ty : Str) : Bool :=
  ty = [] || ty = kPartOutputText || ty = kText || ty = kSummaryText || ty = kOutput

def recurseKeys : List Str := [kContent, kMessages, kOutput, kChoices, kItems, kParts]

mutual
def collect_text_segments : Json → List Str
  | .obj fs =>
    (match (fs.get kText) >>= Json.asStr with
     | some t =>
       if tyOk (((fs.get kType) >>= Json.asStr).getD []) then [t] else []
     | none => []) ++
    (match (fs.get kTextDelta) >>= Json.asStr with
     | some d => [d]
     | none => []) ++ ctsFields fs
  | .arr xs => ctsList xs
  | _ => []
def ctsList : JsonList → List Str
  | .nil => []
  | .cons x tl => collect_text_segments x ++ ctsList tl
def ctsFields : JsonFields → List Str
  | .fnil => []
  | .fcons k v tl =>
    (if k = kText || k = kTextDelta then []
     else if k ∈ recurseKeys then collect_text_segments v
     else if v.isArrOrObj then collect_text_segments v
     else []) ++ ctsFields tl
end

def extract_text_segments_list (v : Json) : List Str :=
  (collect_text_segments v).filter (fun seg => seg ≠ [])

def extract_text_from_response (v : Json) : Option Str :=
  let segs := extract_text_segments_list v
  if segs = [] then none else some (List.intercalate nl2 segs)

def extract_text_from_message (m : Json) : Option Str :=
  match m.get kContent with
  | some (.str s) => some s
  | some (.arr items) =>
    let segs := items.toList.flatMap extract_text_segments_list
    if segs ≠ [] then some (List.intercalate nl2 segs) else none
  | some other =>
    let segs := extract_text_segments_list other
    if segs ≠ [] then some (List.intercalate nl2 segs) else none
  | none => none

/-! ## `parse_response_output` -/

def proPartText (part : Json) : Str :=
  if ((part.get kType) >>= Json.asStr) = some kPartOutputText then
    (((part.get kText) >>= Json.asStr).getD []) ++
    (((part.get kTextDelta) >>= Json.asStr).getD [])
  else
    match (part.get kText) >>= Json.asStr with
    | some s => s
    | none => (part.asStr).getD []

def proParts : List Json → Str → List Citation → List Str → Str × List Citation × List Str
  | [], text, cits, seen => (text, cits, seen)
  | part :: rest, text, cits, seen =>
    let text' := text ++ proPartText part
    let p := collect_citations part cits seen
    proParts rest text' p.1 p.2

def proItems : List Json → Str → List Citation → List Str → Str × List Citation × List Str
  | [], text, cits, seen => (text, cits, seen)
  | item :: rest, text, cits, seen =>
    if ((item.get kType) >>= Json.asStr) = some kMessageTy then
      match (item.get kContent) >>= Json.asArr with
      | some parts =>
        let p := proParts parts.toList text cits seen
        proItems rest p.1 p.2.1 p.2.2
      | none => proItems rest text cits seen
    else proItems rest text cits seen

def parse_response_output (v : Json) (cits : List Citation) (seen : List Str) :
    Str × List Citation × List Str :=
  match (v.get kOutput) >>= Json.asArr with
  | some items => proItems items.toList [] cits seen
  | none => ([], cits, seen)

/-! ## Fragment forwarding (`handle_delta_value`); the sink is modelled by
the list of fragments passed to it -/

/-- Returns (new text buffer, new sent list, emitted flag). -/
def handle_delta_value (v : Json) (buffer : Str) (sent : List Str) :
    Str × List Str × Bool :=
  match v with
  | .str s =>
    if s ≠ [] then (buffer ++ s, sent ++ [s], true) else (buffer, sent, false)
  | _ =>
    let segs := extract_text_segments_list v
    (buffer ++ segs.flatten, sent ++ segs, decide (segs ≠ []))

/-! ## Aggregation state -/

@[ext]
structure AggState where
  text_buffer : Str := []
  displayed : Bool := false
  citations : List Citation := []
  seen : List Str := []
  final_response : Option Json := none
  final_text : Str := []
  final_message : Option Json := none
  sent : List Str := []
  done : Bool := false
  err : Option Str := none

def halted (st : AggState) : Bool := st.done || st.err.isSome

def initState : AggState := {}

/-! ## Structured-event adapter (`stream_responses`'s `handle_payload`) -/

def aggMsgParts (parts : List Json) : Str :=
  parts.flatMap (fun part =>
    (((part.get kText) >>= Json.asStr).getD []) ++
    (((part.get kTextDelta) >>= Json.asStr).getD []))

def respHandleJson (st : AggState) (json : Json) : AggState :=
  let cs := collect_citations json st.citations st.seen
  let st := {st with citations := cs.1, seen := cs.2}
  match (json.get kType) >>= Json.asStr with
  | some ty =>
    if ty = kRespDeltaTy then
      match json.get kDelta with
      | some dv =>
        let r := handle_delta_value dv st.text_buffer st.sent
        {st with text_buffer := r.1, sent := r.2.1, displayed := st.displayed || r.2.2}
      | none => st
    else if kRespAnnPrefix.isPrefixOf ty then st
    else if ty = kRespOutputTextTy then
      match json.get kOutput with
      | some out =>
        let segs := extract_text_segments_list out
        {st with text_buffer := st.text_buffer ++ segs.flatten, sent := st.sent ++ segs,
                 displayed := st.displayed || decide (segs ≠ [])}
      | none => st
    else if ty = kRespCompletedTy then
      match json.get kResponse with
      | some resp => {st with final_response := some resp}
      | none => st
    else if ty = kMessageTy then
      let agg0 : Str :=
        match (json.get kContent) >>= Json.asArr with
        | some parts => aggMsgParts parts.toList
        | none => []
      let agg1 := if agg0 = [] then ((extract_text_from_response json).getD []) else agg0
      let agg2 := if agg1 = [] then json.toStr else agg1
      let st :=
        if agg2 ≠ [] then
          {st with text_buffer := if st.text_buffer = [] then agg2 else st.text_buffer,
                   final_text := agg2}
        else st
      if st.final_response.isNone then {st with final_response := some json} else st
    else if ty = kRespErrorTy then
      let msg := (((json.get kError).bind (fun e => e.get kMessageKey)) >>= Json.asStr).getD kUnknownError
      {st with err := some msg}
    else st
  | none =>
    if (json.get kOutput).isSome then
      let r := parse_response_output json st.citations st.seen
      let st := {st with citations := r.2.1, seen := r.2.2}
      let st := if r.1 ≠ [] then {st with final_text := r.1} else st
      {st with final_response := some json}
    else st

def respHandlePayload (st : AggState) (payload : Str) : AggState :=
  match parseJson payload with
  | none => {st with err := some kInvalidJson}
  | some json => respHandleJson st json

/-! ## Delta-choice adapter (`stream_chat_model`'s `handle_payload` and
`process_chat_delta`) -/

def pcdItems (items : List Json) (st : AggState) : AggState :=
  items.foldl (fun st item =>
    let r := handle_delta_value item st.text_buffer st.sent
    let st := {st with text_buffer := r.1, sent := r.2.1,
                       displayed := st.displayed || r.2.2}
    let cs := collect_citations item st.citations st.seen
    {st with citations := cs.1, seen := cs.2}) st

def collectInto (v : Json) (st : AggState) : AggState :=
  let cs := collect_citations v st.citations st.seen
  {st with citations := cs.1, seen := cs.2}

def process_chat_delta (delta : Json) (st : AggState) : AggState :=
  let st :=
    match delta.get kContent with
    | some (.arr items) => pcdItems items.toList st
    | some (.str s) =>
      if s ≠ [] then
        {st with text_buffer := st.text_buffer ++ s, sent := st.sent ++ [s],
                 displayed := true}
      else st
    | some other =>
      let r := handle_delta_value other st.text_buffer st.sent
      let st := {st with text_buffer := r.1, sent := r.2.1,
                         displayed := st.displayed || r.2.2}
      collectInto other st
    | none => st
  let st := match delta.get kCitations with
    | some cv => collectInto cv st
    | none => st
  let st := match delta.get kAnnotKey with
    | some av => collectInto av st
    | none => st
  match delta.get kMetadata with
  | some mv => collectInto mv st
  | none => st

def chatHandleJson (st : AggState) (json : Json) : AggState :=
  let st := collectInto json st
  match (json.get kChoices) >>= Json.asArr with
  | some choices =>
    match choices.head? with
    | some choice =>
      let st :=
        match choice.get kDelta with
        | some d => process_chat_delta d st
        | none => st
      let st :=
        match choice.get kMessageKey with
        | some m => {st with final_message := some m}
        | none => st
      if (((choice.get kFinishReason)) >>= Json.asStr).isSome then
        match choice.get kMessageKey with
        | some m => {st with final_message := some m}
        | none => st
      else st
    | none => st
  | none =>
    if st.text_buffer = [] then
      match extract_text_from_response json with
      | some content => {st with text_buffer := content}
      | none => st
    else st

def chatHandlePayload (st : AggState) (payload : Str) : AggState :=
  match parseJson payload with
  | none => {st with err := some kInvalidJson}
  | some json => chatHandleJson st json

/-! ## Event parsing (`process_event`, shared shape for both adapters) -/

/-- Scan the lines of one event block for `data:` payloads; `none` signals
the `[DONE]` sentinel (discarding the block), otherwise returns the trimmed
non-empty payload lines. -/
def scanDataLines : List Str → Option (List Str)
  | [] => some []
  | l :: rest =>
    match stripPrefixStr kDataPrefix l with
    | some r =>
      let d := rustTrim r
      if d = kDoneLit then none
      else if d = [] then scanDataLines rest
      else (scanDataLines rest).map (fun ps => d :: ps)
    | none => scanDataLines rest

/-- `process_event`: sentinel detection, payload joining, and the tolerant
direct-JSON path for blocks with no `data:` line (whose parse failures are
only logged). -/
def mkStep (handle : AggState → Str → AggState) (st : AggState) (ev : Str) : AggState :=
  match scanDataLines (linesOf ev) with
  | none => {st with done := true}
  | some [] =>
    let t := rustTrim ev
    if t = [] then st
    else
      let st' := handle st t
      {st' with err := st.err}
  | some ps => handle st (List.intercalate nl1 ps)

def respStep : AggState → Str → AggState := mkStep respHandlePayload
def chatStep : AggState → Str → AggState := mkStep chatHandlePayload

/-! ## Frame splitting and the chunk loop -/

/-- The inner `while let Some(idx) = carry.find("\n\n")` loop on explicit
fuel (any fuel at least the carry length is enough, since every iteration
consumes at least two characters). -/
def drainGo (step : AggState → Str → AggState) : Nat → AggState → Str → AggState × Str
  | 0, st, c => (st, c)
  | fuel + 1, st, c =>
    match splitNN c with
    | none => (st, c)
    | some (ev, rest) =>
      let st' := step st ev
      if halted st' then (st', rest) else drainGo step fuel st' rest

/-- Repeatedly split off complete event blocks from the carry and process
them, stopping early on the sentinel or an error. -/
def drainCarry (step : AggState → Str → AggState) (st : AggState) (c : Str) :
    AggState × Str :=
  drainGo step c.length st c

def feedPiece (step : AggState → Str → AggState) (p : AggState × Str) (piece : Str) :
    AggState × Str :=
  if halted p.1 then p else drainCarry step p.1 (p.2 ++ piece)

def feedChunk (step : AggState → Str → AggState) (p : AggState × Str) (bytes : List Nat) :
    AggState × Str :=
  feedPiece step p (replaceCRLF (utf8Decode bytes))

def runAgg (step : AggState → Str → AggState) (chunks : List (List Nat)) :
    AggState × Str :=
  chunks.foldl (feedChunk step) (initState, [])

/-- The final `if !carry.trim().is_empty() { let _ = process_event(&carry); }`:
the leftover carry is processed as one best-effort event whose error (if
any) is discarded. -/
def flushAgg (step : AggState → Str → AggState) (p : AggState × Str) : AggState :=
  if rustTrim p.2 = [] then p.1
  else {step p.1 p.2 with err := p.1.err}

structure WebSearchResult where
  message : Str
  citations : List Citation
  displayed : Bool
deriving DecidableEq, Repr

/-- The fallback resolution of `stream_responses` (lines 312–351) producing
the final `WebSearchResult` fields. -/
def respBuildResult (st : AggState) : WebSearchResult :=
  let step1 : Str × List Citation × List Str :=
    if st.final_text ≠ [] then (st.final_text, st.citations, st.seen)
    else if rustTrim st.text_buffer ≠ [] then (st.text_buffer, st.citations, st.seen)
    else
      match st.final_response with
      | some resp =>
        let r := parse_response_output resp st.citations st.seen
        let ft1 := if r.1 ≠ [] then r.1 else ((extract_text_from_response resp).getD [])
        let cs := collect_citations resp r.2.1 r.2.2
        (ft1, cs.1, cs.2)
      | none => ([], st.citations, st.seen)
  let ft2 :=
    if step1.1 = [] then
      match st.final_response with
      | some resp =>
        let segs := extract_text_segments_list resp
        if segs ≠ [] then List.intercalate nl2 segs else resp.toStr
      | none => []
    else step1.1
  ⟨ft2, step1.2.1, st.displayed⟩

/-- The final-message resolution of `stream_chat_model` (lines 530–578). -/
def chatBuildResult (st : AggState) : WebSearchResult :=
  match st.final_message with
  | some m =>
    let buf1 :=
      if st.text_buffer = [] then
        match extract_text_from_message m with
        | some content => if content ≠ [] then content else []
        | none => []
      else st.text_buffer
    let buf2 :=
      if buf1 = [] then
        let segs := extract_text_segments_list m
        if segs ≠ [] then List.intercalate nl2 segs else m.toStr
      else buf1
    let cs := collect_citations m st.citations st.seen
    ⟨buf2, cs.1, st.displayed⟩
  | none => ⟨st.text_buffer, st.citations, st.displayed⟩

def runStream (step : AggState → Str → AggState) (build : AggState → WebSearchResult)
    (chunks : List (List Nat)) : Except Str WebSearchResult :=
  let p := runAgg step chunks
  match p.1.err with
  | some e => .error e
  | none => .ok (build (flushAgg step p))

/-- The whole `stream_responses` aggregation run on a list of byte chunks. -/
def stream_responses (chunks : List (List Nat)) : Except Str WebSearchResult :=
  runStream respStep respBuildResult chunks

/-- The whole `stream_chat_model` aggregation run on a list of byte chunks. -/
def stream_chat_model (chunks : List (List Nat)) : Except Str WebSearchResult :=
  runStream chatStep chatBuildResult chunks

/-! ## Event-level (already-parsed payload) runs, used for the universally
quantified statements about the adapters -/

def respValueRun (vs : List Json) : Except Str WebSearchResult :=
  let st := vs.foldl (fun st v => if halted st then st else respHandleJson st v) initState
  match st.err with
  | some e => .error e
  | none => .ok (respBuildResult st)

def chatValueRun (vs : List Json) : Except Str WebSearchResult :=
  let st := vs.foldl (fun st v => if halted st then st else chatHandleJson st v) initState
  match st.err with
  | some e => .error e
  | none => .ok (chatBuildResult st)

/-- The final aggregation state of a `stream_responses` run, after the
closing best-effort flush of the leftover carry. -/
def respRunState (chunks : List (List Nat)) : AggState :=
  flushAgg respStep (runAgg respStep chunks)

def chatRunState (chunks : List (List Nat)) : AggState :=
  flushAgg chatStep (runAgg chatStep chunks)

/-! ## Raw citation occurrences and keep-first deduplication (for the
refinement statement of claim C4) -/

mutual
/-- Every citation candidate of the value tree in the walk's visit order:
each object with a URL-shaped field contributes `(url, title)` before its
field values are visited. -/
def citeOccs : Json → List (Str × Option Str)
  | .obj fs =>
    (match urlOf fs with
     | some u => [(u, titleOf fs)]
     | none => []) ++ citeOccsF fs
  | .arr xs => citeOccsL xs
  | _ => []
def citeOccsL : JsonList → List (Str × Option Str)
  | .nil => []
  | .cons x tl => citeOccs x ++ citeOccsL tl
def citeOccsF : JsonFields → List (Str × Option Str)
  | .fnil => []
  | .fcons _ v tl => citeOccs v ++ citeOccsF tl
end

/-- Keep-first deduplication by URL of an occurrence sequence, starting
from an already-seen set: the first occurrence of a URL fixes its title. -/
def dedupFold (seen : List Str) : List (Str × Option Str) → List Citation × List Str
  | [] => ([], seen)
  | (u, t) :: rest =>
    if u ∈ seen then dedupFold seen rest
    else
      let p := dedupFold (seen ++ [u]) rest
      (⟨u, t⟩ :: p.1, p.2)

/-- Harvesting a whole sequence of payload values, threading the citation
list and seen set exactly as an aggregation run does. -/
def collectManyCitations (vs : List Json) : List Citation × List Str :=
  vs.foldl (fun p v => collect_citations v p.1 p.2) ([], [])

/-! ## Event values and spec-side comparison definitions for claims C6/C7 -/

/-- A `response.output_text.delta` event with a plain string fragment
(fields in the sorted order the parser produces). -/
def deltaEvent (f : Str) : Json :=
  .obj (.fcons kDelta (.str f) (.fcons kType (.str kRespDeltaTy) .fnil))

/-- A chat payload whose single choice carries only a `message` field. -/
def chatMsgPayload (m : Json) : Json :=
  .obj (.fcons kChoices (.arr (.cons (.obj (.fcons kMessageKey m .fnil)) .nil)) .fnil)

/-- A chat payload whose single choice carries only `delta.content` with a
plain string fragment. -/
def chatDeltaPayload (f : Str) : Json :=
  .obj (.fcons kChoices
    (.arr (.cons (.obj (.fcons kDelta (.obj (.fcons kContent (.str f) .fnil)) .fnil)) .nil))
    .fnil)

/-- Spec wording (§4.4/§4.7): the retained final message fills the result
text "first by direct content extraction, then by the generic text-segment
walk, then as a last resort by serializing the whole message value to
text". -/
def chatFinalFallbackSpec (m : Json) : Str :=
  let walkOrSerialize : Str :=
    let segs := extract_text_segments_list m
    if segs ≠ [] then List.intercalate nl2 segs else m.toStr
  match extract_text_from_message m with
  | some c => if c ≠ [] then c else walkOrSerialize
  | none => walkOrSerialize

/-! ## Sink-interaction bookkeeping (for claim C5) -/

/-- One processing step's effect on the sink: some batch of non-empty
fragments is appended to the sent list, and the displayed flag is set
exactly when the batch is non-empty. -/
def sinkStep (st st' : AggState) : Prop :=
  ∃ frags, st'.sent = st.sent ++ frags ∧ (∀ f ∈ frags, f ≠ []) ∧
    st'.displayed = (st.displayed || decide (frags ≠ []))

/-! ## Concrete byte streams for scenarios, counterexamples and witnesses -/

def scenarioABytes : List (List Nat) :=
  [strBytes ("data: \x7b\"type\":\"response.output_text.delta\",\"delta\":\"Hello \"\x7d\n\n"),
   strBytes ("data: \x7b\"type\":\"response.output_text.delta\",\"delta\":\"world\"\x7d\n\n"),
   strBytes ("data: [DONE]\n\n")]

def scenarioCBytes : List (List Nat) :=
  [strBytes ("data: \x7b\"choices\":[\x7b\"finish_reason\":\"stop\",\"message\":\x7b\"content\":\"Done.\"\x7d\x7d]\x7d\n\ndata: [DONE]\n\n")]

/-- A stream whose second block's `data:` payload is not valid JSON, though
well-formed blocks (including the sentinel) follow. -/
def c2CexBytes : List Nat :=
  strBytes ("data: nope\n\ndata: \x7b\"type\":\"response.output_text.delta\",\"delta\":\"X\"\x7d\n\ndata: [DONE]\n\n")

/-- A sentinel block followed, in the same chunk, by a complete delta block
without a trailing blank line. -/
def c3TrailBytes : List Nat :=
  strBytes ("data: [DONE]\n\ndata: \x7b\"type\":\"response.output_text.delta\",\"delta\":\"X\"\x7d")

def c3DoneBytes : List Nat := strBytes ("data: [DONE]\n\n")

/-- A single whitespace-only delta followed by the sentinel. -/
def c6WsBytes : List Nat :=
  strBytes ("data: \x7b\"type\":\"response.output_text.delta\",\"delta\":\" \"\x7d\n\ndata: [DONE]\n\n")

/-- A delta stream carrying the three-byte character `あ`, followed by the
sentinel. -/
def c1WholeBytes : List Nat :=
  strBytes ("data: \x7b\"type\":\"response.output_text.delta\",\"delta\":\"あ\"\x7d\n\ndata: [DONE]\n\n")

/-- A chat payload in which only the second choice carries a message. -/
def c7CexBytes : List Nat :=
  strBytes ("data: \x7b\"choices\":[\x7b\x7d,\x7b\"message\":\x7b\"content\":\"Hi\"\x7d\x7d]\x7d\n\ndata: [DONE]\n\n")

/-- A `response.completed` event whose response object holds no extractable
text at all. -/
def c8SnapshotBytes : List Nat :=
  strBytes ("data: \x7b\"type\":\"response.completed\",\"response\":\x7b\x7d\x7d\n\ndata: [DONE]\n\n")

/-- Scenario B: a `response.completed` event whose nested annotation
carries a url/title citation, with no prior deltas; a second occurrence of
the same URL under a different title follows and must be ignored. -/
def scenarioBBytes : List (List Nat) :=
  [strBytes ("data: \x7b\"type\":\"response.completed\",\"response\":\x7b\"output\":[\x7b\"type\":\"message\",\"content\":[\x7b\"type\":\"output_text\",\"text\":\"Short answer.\",\"annotations\":[\x7b\"url\":\"https://example.com\",\"title\":\"Example\"\x7d,\x7b\"url\":\"https://example.com\",\"title\":\"Other\"\x7d]\x7d]\x7d]\x7d\x7d\n\ndata: [DONE]\n\n")]

/-- A minimal citation-bearing stream: an untyped payload whose object has
a `url`/`title` pair (harvested by the unconditional `collect_citations`
call of `handle_payload`), followed by the sentinel. -/
def c4WitnessBytes : List (List Nat) :=
  [strBytes ("data: \x7b\"title\":\"T\",\"url\":\"u\"\x7d\n\ndata: [DONE]\n\n")]

/-- The citation-soundness invariant on a (citations, seen) pair: the seen
set is exactly the citation URLs, without duplicates. -/
def CInvPair (p : List Citation × List Str) : Prop :=
  p.2 = p.1.map Citation.url ∧ p.2.Nodup

/-! ## Definitions for the chunk-boundary analysis (claim C1) -/

/-- The decoded, line-ending-normalized text of one byte chunk, exactly as
`String::from_utf8_lossy(&bytes).replace("\r\n", "\n")` produces it. -/
def decPiece (c : List Nat) : Str := replaceCRLF (utf8Decode c)

/-- No adjacent boundary in the decoded piece sequence separates a carriage
return from a following line feed (such a split would defeat the per-chunk
`replace("\r\n", "\n")`). -/
def crlfSafe : List Str → Bool
  | [] => true
  | [_] => true
  | a :: b :: r =>
    !((a.getLast? == some '\r') && (b.head? == some '\n')) && crlfSafe (b :: r)

/-- Byte index just after the lead byte of `あ` in `c1WholeBytes`: the split
point that cuts the three-byte character in two. -/
def c1SplitAt : Nat := 53

def c1Chunk1 : List Nat := c1WholeBytes.take c1SplitAt

def c1Chunk2 : List Nat := c1WholeBytes.drop c1SplitAt

/-- A well-behaved chunking of a delta-then-sentinel stream: the split cuts a
JSON payload in half (mid-key) but never a UTF-8 character, no boundary
separates a carriage return from a line feed, and nothing follows the
sentinel block. -/
def c1WitChunks : List (List Nat) :=
  [strBytes ("data: \x7b\"type\":\"response.output_text.delta\",\"del"),
   strBytes ("ta\":\"Hi\"\x7d\n\ndata: [DONE]\n\n")]

/-! # Theorems -/

theorem splitNN_cons (a : Char) (t : Str) :
    splitNN (a :: t) =
      if a = '\n' ∧ t.head? = some '\n' then some ([], t.tail)
      else (splitNN t).map (fun p => (a :: p.1, p.2)) := by
  cases t with
  | nil => simp [splitNN]
  | cons b t' =>
    by_cases ha : a = '\n' <;> by_cases hb : b = '\n' <;>
      simp [splitNN, ha, hb]

theorem splitNN_len (c : Str) (e r : Str) (h : splitNN c = some (e, r)) :
    c.length = e.length + r.length + 2 := by
  induction c generalizing e r with
  | nil => simp [splitNN] at h
  | cons a t ih =>
    rw [splitNN_cons] at h
    split at h
    · rename_i hnn
      obtain ⟨he, hr⟩ := Prod.mk.injEq .. ▸ (Option.some.injEq .. ▸ h)
      cases t with
      | nil => simp at hnn
      | cons b t' =>
        subst he
        simp at hr
        subst hr
        simp
    · cases hsp : splitNN t with
      | none => rw [hsp] at h; simp at h
      | some p =>
        rw [hsp] at h
        simp at h
        obtain ⟨he, hr⟩ := h
        have := ih p.1 p.2 (by rw [hsp])
        subst he; subst hr
        simp at this ⊢
        omega

/-! ## Text-buffer monotonicity (claim C9) -/

theorem hdv_buffer_grows (v : Json) (buffer : Str) (sent : List Str) :
    buffer <+: (handle_delta_value v buffer sent).1 := by
  unfold handle_delta_value
  cases v <;> simp only [] <;> try exact List.prefix_append _ _
  split
  · exact List.prefix_append _ _
  · exact List.prefix_rfl

theorem pcdItems_buffer_grows (items : List Json) (st : AggState) :
    st.text_buffer <+: (pcdItems items st).text_buffer := by
  induction items generalizing st with
  | nil => exact List.prefix_rfl
  | cons x rest ih =>
    unfold pcdItems at ih ⊢
    simp only [List.foldl_cons]
    refine List.IsPrefix.trans ?_ (ih _)
    simp only []
    exact hdv_buffer_grows x st.text_buffer st.sent

theorem pcd_buffer_grows (d : Json) (st : AggState) :
    st.text_buffer <+: (process_chat_delta d st).text_buffer := by
  unfold process_chat_delta collectInto
  repeat' (first | split | (dsimp only))
  all_goals
    first
    | exact List.prefix_rfl
    | exact List.prefix_append _ _
    | exact pcdItems_buffer_grows _ _
    | exact hdv_buffer_grows _ _ _
    | simp_all

theorem respHandleJson_buffer_grows (st : AggState) (j : Json) :
    st.text_buffer <+: (respHandleJson st j).text_buffer := by
  unfold respHandleJson
  repeat' (first | split | (dsimp only))
  all_goals
    first
    | exact List.prefix_rfl
    | exact List.prefix_append _ _
    | exact hdv_buffer_grows _ _ _
    | simp_all

theorem prefix_by_eq {a b c : Str} (h : a <+: c) (hab : a = b) : b <+: c := hab ▸ h

theorem chatHandleJson_buffer_grows (st : AggState) (j : Json) :
    st.text_buffer <+: (chatHandleJson st j).text_buffer := by
  unfold chatHandleJson collectInto
  repeat' (first | split | (dsimp only))
  all_goals
    first
    | exact List.prefix_rfl
    | exact prefix_by_eq (pcd_buffer_grows _ _) rfl
    | simp_all

theorem respHandlePayload_buffer_grows (st : AggState) (p : Str) :
    st.text_buffer <+: (respHandlePayload st p).text_buffer := by
  unfold respHandlePayload
  split
  · exact List.prefix_rfl
  · exact respHandleJson_buffer_grows _ _

theorem chatHandlePayload_buffer_grows (st : AggState) (p : Str) :
    st.text_buffer <+: (chatHandlePayload st p).text_buffer := by
  unfold chatHandlePayload
  split
  · exact List.prefix_rfl
  · exact chatHandleJson_buffer_grows _ _

theorem mkStep_buffer_grows (handle : AggState → Str → AggState)
    (hh : ∀ st p, st.text_buffer <+: (handle st p).text_buffer)
    (st : AggState) (ev : Str) :
    st.text_buffer <+: (mkStep handle st ev).text_buffer := by
  unfold mkStep
  split
  · exact List.prefix_rfl
  · dsimp only
    split
    · exact List.prefix_rfl
    · exact prefix_by_eq (hh _ _) rfl
  · exact hh _ _

/-- C9: during an aggregation run, under either protocol adapter, processing
one event never truncates or rewrites the text buffer: the previous contents
remain a prefix of the new contents (direct reassignments in the code happen
only on an empty buffer). -/
theorem C9_text_buffer_only_grows (st : AggState) (ev : Str) :
    st.text_buffer <+: (respStep st ev).text_buffer ∧
    st.text_buffer <+: (chatStep st ev).text_buffer :=
  ⟨mkStep_buffer_grows _ respHandlePayload_buffer_grows st ev,
   mkStep_buffer_grows _ chatHandlePayload_buffer_grows st ev⟩

/-! ## Bare top-level strings yield no text segments (claim C10) -/

/-- C10: the generic text-segment walk collects nothing from a JSON value
that is a bare string at the top level, so `extract_text_from_response`
returns `None` on it and no segment-walk path extracts text from it. -/
theorem C10_bare_string_no_segments (s : Str) :
    collect_text_segments (.str s) = [] ∧
    extract_text_segments_list (.str s) = [] ∧
    extract_text_from_response (.str s) = none :=
  ⟨rfl, rfl, rfl⟩

/-! ## Claim C2: tolerance of unparsable blocks -/

theorem scanDataLines_noData (ls : List Str)
    (h : ∀ l ∈ ls, stripPrefixStr kDataPrefix l = none) :
    scanDataLines ls = some [] := by
  induction ls with
  | nil => rfl
  | cons l rest ih =>
    unfold scanDataLines
    rw [h l (by simp)]
    exact ih (fun x hx => h x (by simp [hx]))

theorem mkStep_noData_err (handle : AggState → Str → AggState) (st : AggState)
    (ev : Str) (he : st.err = none)
    (h : ∀ l ∈ linesOf ev, stripPrefixStr kDataPrefix l = none) :
    (mkStep handle st ev).err = none := by
  unfold mkStep
  rw [scanDataLines_noData _ h]
  dsimp only
  split
  · exact he
  · exact he

/-- C2 counterexample: a mid-stream block whose `data:` payload fails JSON
parsing aborts the whole run and surfaces the parse failure to the caller
as an error, even though well-formed blocks and the sentinel follow. -/
theorem C2_counterexample :
    stream_responses [c2CexBytes] = .error ("Invalid JSON chunk".toList) := by rfl

/-- C2 (amended): only event blocks with no `data:` line are parse-failure
tolerant: processing such a block never sets the error state under either
adapter, so the run continues; a failing joined `data:` payload, by
contrast, aborts the run (see the counterexample). -/
theorem C2_no_data_line_blocks_tolerated (st : AggState) (ev : Str)
    (he : st.err = none)
    (h : ∀ l ∈ linesOf ev, stripPrefixStr kDataPrefix l = none) :
    (respStep st ev).err = none ∧ (chatStep st ev).err = none :=
  ⟨mkStep_noData_err _ st ev he h, mkStep_noData_err _ st ev he h⟩

theorem C2_witness :
    (respStep initState ("notjson".toList)).err = none ∧
    (chatStep initState ("notjson".toList)).err = none :=
  C2_no_data_line_blocks_tolerated initState _ rfl (by decide)

/-! ## Claim C3: sentinel handling -/

theorem foldl_feedChunk_halted (step : AggState → Str → AggState)
    (p : AggState × Str) (hp : halted p.1 = true) (ts : List (List Nat)) :
    ts.foldl (feedChunk step) p = p := by
  induction ts with
  | nil => rfl
  | cons t rest ih =>
    simp only [List.foldl_cons, feedChunk, feedPiece, hp, if_pos]
    exact ih

/-- C3 counterexample: bytes that follow the sentinel in the carry buffer
are NOT discarded — the final best-effort flush processes them as one
event, so they can change the returned result (here they contribute the
whole message and flip the displayed flag). -/
theorem C3_counterexample :
    stream_responses [c3TrailBytes] = .ok ⟨"X".toList, [], true⟩ ∧
    stream_responses [c3DoneBytes] = .ok ⟨[], [], false⟩ ∧
    (⟨"X".toList, [], true⟩ : WebSearchResult) ≠ ⟨[], [], false⟩ :=
  ⟨by rfl, by rfl, by decide⟩

/-- C3 (amended): once a run has terminated at the `data: [DONE]` sentinel,
chunks arriving after the sentinel's chunk are never read: appending any
further chunks leaves the returned result unchanged, under either adapter.
(Bytes already in the carry behind the sentinel are instead flushed as one
best-effort event; see the counterexample.) -/
theorem C3_sentinel_stops_reading (cs ts : List (List Nat)) :
    ((runAgg respStep cs).1.done = true →
      stream_responses (cs ++ ts) = stream_responses cs) ∧
    ((runAgg chatStep cs).1.done = true →
      stream_chat_model (cs ++ ts) = stream_chat_model cs) := by
  constructor <;> intro hdone <;> unfold runAgg at hdone
  · unfold stream_responses runStream
    rw [runAgg, List.foldl_append]
    rw [foldl_feedChunk_halted _ _ (by simp [halted, hdone]) ts]
    rfl
  · unfold stream_chat_model runStream
    rw [runAgg, List.foldl_append]
    rw [foldl_feedChunk_halted _ _ (by simp [halted, hdone]) ts]
    rfl

theorem C3_witness :
    stream_responses ([c3DoneBytes] ++ [strBytes ("data: \x7b\"type\":\"response.output_text.delta\",\"delta\":\"Y\"\x7d\n\n")]) =
      stream_responses [c3DoneBytes] :=
  (C3_sentinel_stops_reading [c3DoneBytes] _).1 (by rfl)

/-! ## Claim C5: the displayed flag tracks the sink exactly -/

theorem segsAllNonempty (v : Json) : ∀ x ∈ extract_text_segments_list v, x ≠ [] := by
  intro x hx
  unfold extract_text_segments_list at hx
  simp only [List.mem_filter, decide_eq_true_eq] at hx
  exact hx.2

theorem decide_append_ne (f1 f2 : List Str) :
    decide (f1 ++ f2 ≠ []) = (decide (f1 ≠ []) || decide (f2 ≠ [])) := by
  by_cases h1 : f1 = [] <;> by_cases h2 : f2 = [] <;> simp [h1, h2]

theorem sinkStep_rfl {st st' : AggState} (hs : st'.sent = st.sent)
    (hd : st'.displayed = st.displayed) : sinkStep st st' :=
  ⟨[], by simp [hs], by simp, by simp [hd]⟩

theorem sinkStep_trans {a b c : AggState} (h1 : sinkStep a b) (h2 : sinkStep b c) :
    sinkStep a c := by
  obtain ⟨f1, s1, n1, d1⟩ := h1
  obtain ⟨f2, s2, n2, d2⟩ := h2
  refine ⟨f1 ++ f2, by simp [s2, s1], ?_, ?_⟩
  · intro f hf
    rcases List.mem_append.1 hf with h | h
    exacts [n1 f h, n2 f h]
  · rw [d2, d1, decide_append_ne, Bool.or_assoc]

theorem sinkStep_congr {a b c : AggState} (h : sinkStep a b) (hs : c.sent = b.sent)
    (hd : c.displayed = b.displayed) : sinkStep a c := by
  obtain ⟨f1, s1, n1, d1⟩ := h
  exact ⟨f1, by rw [hs, s1], n1, by rw [hd, d1]⟩

theorem hdv_sink (v : Json) (buffer : Str) (sent : List Str) :
    ∃ frags, (handle_delta_value v buffer sent).2.1 = sent ++ frags ∧
      (∀ f ∈ frags, f ≠ []) ∧
      (handle_delta_value v buffer sent).2.2 = decide (frags ≠ []) := by
  unfold handle_delta_value
  cases v <;> dsimp only
  case str s =>
    split
    · rename_i hs
      exact ⟨[s], rfl, by simpa using hs, by simp [hs]⟩
    · rename_i hs
      simp only [ne_eq, not_not] at hs
      exact ⟨[], by simp, by simp, by simp⟩
  all_goals exact ⟨extract_text_segments_list _, rfl, segsAllNonempty _, rfl⟩

theorem sinkStep_hdvUpdate (st st' : AggState) (v : Json)
    (hs : st'.sent = (handle_delta_value v st.text_buffer st.sent).2.1)
    (hd : st'.displayed = (st.displayed || (handle_delta_value v st.text_buffer st.sent).2.2)) :
    sinkStep st st' := by
  obtain ⟨frags, h1, h2, h3⟩ := hdv_sink v st.text_buffer st.sent
  exact ⟨frags, by rw [hs, h1], h2, by rw [hd, h3]⟩

theorem sinkStep_segsUpdate (st st' : AggState) (out : Json)
    (hs : st'.sent = st.sent ++ extract_text_segments_list out)
    (hd : st'.displayed = (st.displayed || decide (extract_text_segments_list out ≠ []))) :
    sinkStep st st' :=
  ⟨extract_text_segments_list out, hs, segsAllNonempty out, hd⟩

theorem sinkStep_pushOne (st st' : AggState) (s : Str) (hne : s ≠ [])
    (hs : st'.sent = st.sent ++ [s]) (hd : st'.displayed = true) : sinkStep st st' :=
  ⟨[s], hs, by simpa using hne, by simp [hd]⟩

theorem respHandleJson_sink (st : AggState) (j : Json) :
    sinkStep st (respHandleJson st j) := by
  unfold respHandleJson
  repeat' (first | split | dsimp only)
  all_goals
    first
    | exact sinkStep_rfl rfl rfl
    | exact sinkStep_hdvUpdate st _ _ rfl rfl
    | exact sinkStep_segsUpdate st _ _ rfl rfl

theorem pcdItems_sink (items : List Json) (st : AggState) :
    sinkStep st (pcdItems items st) := by
  induction items generalizing st with
  | nil => exact sinkStep_rfl rfl rfl
  | cons x rest ih =>
    unfold pcdItems at ih ⊢
    simp only [List.foldl_cons]
    refine sinkStep_trans ?_ (ih _)
    exact sinkStep_hdvUpdate st _ _ rfl rfl

theorem pcd_sink (d : Json) (st : AggState) :
    sinkStep st (process_chat_delta d st) := by
  unfold process_chat_delta collectInto
  repeat' (first | split | dsimp only)
  all_goals
    first
    | exact sinkStep_rfl rfl rfl
    | exact sinkStep_congr (pcdItems_sink _ _) rfl rfl
    | exact sinkStep_pushOne st _ _ (by assumption) rfl rfl
    | exact sinkStep_hdvUpdate st _ _ rfl rfl

theorem sinkStep_baseCongr {a a' b : AggState} (h : sinkStep a' b)
    (hs : a'.sent = a.sent) (hd : a'.displayed = a.displayed) : sinkStep a b := by
  obtain ⟨f1, s1, n1, d1⟩ := h
  exact ⟨f1, by rw [s1, hs], n1, by rw [d1, hd]⟩

theorem chatHandleJson_sink (st : AggState) (j : Json) :
    sinkStep st (chatHandleJson st j) := by
  unfold chatHandleJson collectInto
  repeat' (first | split | dsimp only)
  all_goals
    first
    | exact sinkStep_rfl rfl rfl
    | exact sinkStep_congr (sinkStep_baseCongr (pcd_sink _ (collectInto j st)) rfl rfl)
        rfl rfl

theorem respHandlePayload_sink (st : AggState) (p : Str) :
    sinkStep st (respHandlePayload st p) := by
  unfold respHandlePayload
  split
  · exact sinkStep_rfl rfl rfl
  · exact respHandleJson_sink _ _

theorem chatHandlePayload_sink (st : AggState) (p : Str) :
    sinkStep st (chatHandlePayload st p) := by
  unfold chatHandlePayload
  split
  · exact sinkStep_rfl rfl rfl
  · exact chatHandleJson_sink _ _

theorem mkStep_sink (handle : AggState → Str → AggState)
    (hh : ∀ st p, sinkStep st (handle st p)) (st : AggState) (ev : Str) :
    sinkStep st (mkStep handle st ev) := by
  unfold mkStep
  split
  · exact sinkStep_rfl rfl rfl
  · dsimp only
    split
    · exact sinkStep_rfl rfl rfl
    · exact sinkStep_congr (hh _ _) rfl rfl
  · exact hh _ _

theorem drainGo_sink (step : AggState → Str → AggState)
    (hstep : ∀ s ev, sinkStep s (step s ev)) :
    ∀ (fuel : Nat) (st : AggState) (c : Str),
      sinkStep st (drainGo step fuel st c).1 := by
  intro fuel
  induction fuel with
  | zero => intro st c; exact sinkStep_rfl rfl rfl
  | succ n ih =>
    intro st c
    rw [drainGo]
    split
    · exact sinkStep_rfl rfl rfl
    · dsimp only
      split
      · exact hstep _ _
      · exact sinkStep_trans (hstep _ _) (ih _ _)

theorem runAgg_sink (step : AggState → Str → AggState)
    (hstep : ∀ s ev, sinkStep s (step s ev)) (chunks : List (List Nat)) :
    sinkStep initState (runAgg step chunks).1 := by
  unfold runAgg
  suffices h : ∀ (p : AggState × Str), sinkStep p.1 (List.foldl (feedChunk step) p chunks).1 by
    exact h (initState, [])
  induction chunks with
  | nil => intro p; exact sinkStep_rfl rfl rfl
  | cons c rest ih =>
    intro p
    simp only [List.foldl_cons]
    refine sinkStep_trans ?_ (ih _)
    unfold feedChunk feedPiece
    split
    · exact sinkStep_rfl rfl rfl
    · exact drainGo_sink step hstep _ _ _

theorem flushAgg_sink (step : AggState → Str → AggState)
    (hstep : ∀ s ev, sinkStep s (step s ev)) (p : AggState × Str) :
    sinkStep p.1 (flushAgg step p) := by
  unfold flushAgg
  split
  · exact sinkStep_rfl rfl rfl
  · exact sinkStep_congr (hstep _ _) rfl rfl

theorem respRunState_sink (chunks : List (List Nat)) :
    sinkStep initState (respRunState chunks) :=
  sinkStep_trans
    (runAgg_sink respStep (mkStep_sink _ respHandlePayload_sink) chunks)
    (flushAgg_sink respStep (mkStep_sink _ respHandlePayload_sink) _)

theorem chatRunState_sink (chunks : List (List Nat)) :
    sinkStep initState (chatRunState chunks) :=
  sinkStep_trans
    (runAgg_sink chatStep (mkStep_sink _ chatHandlePayload_sink) chunks)
    (flushAgg_sink chatStep (mkStep_sink _ chatHandlePayload_sink) _)

theorem exists_mem_ne_nil_iff (frags : List Str)
    (hall : ∀ f ∈ frags, f ≠ []) : frags ≠ [] ↔ ∃ f ∈ frags, f ≠ [] := by
  cases frags with
  | nil => simp
  | cons a l =>
    constructor
    · intro _
      exact ⟨a, by simp, hall a (by simp)⟩
    · intro _
      simp

theorem chatBuildResult_displayed (st : AggState) :
    (chatBuildResult st).displayed = st.displayed := by
  unfold chatBuildResult
  split <;> rfl

theorem sink_displayed_iff (st : AggState) (h : sinkStep initState st) :
    st.displayed = true ↔ ∃ f ∈ st.sent, f ≠ [] := by
  obtain ⟨frags, hs, hall, hd⟩ := h
  have hs' : st.sent = frags := by simpa [initState] using hs
  have hd' : st.displayed = decide (frags ≠ []) := by simpa [initState] using hd
  rw [hs', hd']
  simp only [decide_eq_true_eq]
  exact exists_mem_ne_nil_iff frags hall

/-- C5: under either protocol adapter, a successful aggregation run returns
`displayed = true` exactly when at least one non-empty fragment was passed
to the caller-supplied sink during the run (the `sent` field records every
fragment forwarded to the sink, including by the final carry flush). -/
theorem C5_displayed_iff_sink (chunks : List (List Nat)) :
    (∀ r, stream_responses chunks = .ok r →
      (r.displayed = true ↔ ∃ f ∈ (respRunState chunks).sent, f ≠ [])) ∧
    (∀ r, stream_chat_model chunks = .ok r →
      (r.displayed = true ↔ ∃ f ∈ (chatRunState chunks).sent, f ≠ [])) := by
  constructor
  · intro r hr
    unfold stream_responses runStream at hr
    dsimp only at hr
    split at hr
    · cases hr
    · cases hr
      exact sink_displayed_iff _ (respRunState_sink chunks)
  · intro r hr
    unfold stream_chat_model runStream at hr
    dsimp only at hr
    split at hr
    · cases hr
    · cases hr
      rw [chatBuildResult_displayed]
      exact sink_displayed_iff _ (chatRunState_sink chunks)

theorem C5_witness :
    (⟨"Hello world".toList, [], true⟩ : WebSearchResult).displayed = true ↔
      ∃ f ∈ (respRunState scenarioABytes).sent, f ≠ [] :=
  (C5_displayed_iff_sink scenarioABytes).1 ⟨"Hello world".toList, [], true⟩ (by rfl)

/-! ## Claim C6: delta concatenation under the structured-event adapter -/

theorem hdv_str (f b : Str) (s : List Str) :
    handle_delta_value (.str f) b s =
      (b ++ f, s ++ (if f = [] then [] else [f]), decide (f ≠ [])) := by
  by_cases hf : f = [] <;> simp [handle_delta_value, hf]

theorem respHandleJson_deltaEvent (st : AggState) (f : Str) :
    respHandleJson st (deltaEvent f) =
      {st with text_buffer := (handle_delta_value (.str f) st.text_buffer st.sent).1,
               sent := (handle_delta_value (.str f) st.text_buffer st.sent).2.1,
               displayed := st.displayed ||
                 (handle_delta_value (.str f) st.text_buffer st.sent).2.2} := by
  rfl

theorem C6_fold (fs : List Str) : ∀ (st : AggState), st.done = false → st.err = none →
    (fs.map deltaEvent).foldl
        (fun st v => if halted st then st else respHandleJson st v) st =
      {st with text_buffer := st.text_buffer ++ fs.flatten,
               sent := st.sent ++ fs.filter (fun f => f ≠ []),
               displayed := st.displayed || fs.any (fun f => decide (f ≠ []))} := by
  induction fs with
  | nil =>
    intro st h1 h2
    simp
  | cons f rest ih =>
    intro st h1 h2
    have hh : halted st = false := by simp [halted, h1, h2]
    simp only [List.map_cons, List.foldl_cons, hh, Bool.false_eq_true, if_false]
    rw [respHandleJson_deltaEvent, hdv_str]
    dsimp only
    refine Eq.trans (ih _ ?_ ?_) ?_
    · exact h1
    · exact h2
    by_cases hf : f = [] <;>
      simp [hf, Bool.or_assoc, List.filter_cons, List.any_cons]

/-- C6 counterexample: a stream consisting of the single delta `" "`
followed by the sentinel yields an empty message, not `" "` — the
concatenation is dropped because it is whitespace-only
(`text_buffer.trim().is_empty()` at web.rs:313 with no final response to
fall back to). -/
theorem C6_counterexample :
    stream_responses [c6WsBytes] = .ok ⟨[], [], true⟩ ∧ (" ".toList : Str) ≠ [] :=
  ⟨by rfl, by decide⟩

/-- C6 (amended): under the structured-event adapter, a stream of
`response.output_text.delta` events with string fragments f1..fn followed
by the sentinel yields `message = f1 ++ … ++ fn`, empty citations, and
`displayed` exactly when some fragment is non-empty — PROVIDED the
concatenation is empty or contains a non-whitespace character (a
whitespace-only concatenation yields an empty message instead, see the
counterexample).  Scenario A is the byte-level instance. -/
theorem C6_delta_concatenation :
    (∀ fs : List Str, (rustTrim fs.flatten = [] → fs.flatten = []) →
      respValueRun (fs.map deltaEvent) =
        .ok ⟨fs.flatten, [], fs.any (fun f => decide (f ≠ []))⟩) ∧
    stream_responses scenarioABytes = .ok ⟨"Hello world".toList, [], true⟩ := by
  constructor
  · intro fs hws
    unfold respValueRun
    rw [C6_fold fs initState rfl rfl]
    dsimp only
    by_cases hflat : fs.flatten = []
    · unfold respBuildResult
      simp [hflat, initState, rustTrim]
    · have htrim : ¬ rustTrim fs.flatten = [] := fun hcon => hflat (hws hcon)
      unfold respBuildResult
      simp [initState, htrim, hflat]
  · rfl

theorem C6_witness :
    respValueRun (["Hello ".toList, "world".toList].map deltaEvent) =
      .ok ⟨"Hello world".toList, [], true⟩ := by
  have := C6_delta_concatenation.1 ["Hello ".toList, "world".toList] (by decide)
  simpa using this

/-! ## Claim C7: final-message fallback under the delta-choice adapter -/

theorem chatHandleJson_msgPayload (st : AggState) (m : Json) :
    chatHandleJson st (chatMsgPayload m) =
      {(collectInto (chatMsgPayload m) st) with final_message := some m} := by
  rfl

theorem chatHandleJson_deltaPayload (st : AggState) (f : Str) :
    chatHandleJson st (chatDeltaPayload f) =
      if f ≠ [] then
        {st with text_buffer := st.text_buffer ++ f, sent := st.sent ++ [f],
                 displayed := true}
      else st := by
  by_cases hf : f = []
  · subst hf
    rfl
  · rw [if_pos hf]
    have h1 : chatHandleJson st (chatDeltaPayload f) =
        (if f ≠ [] then
          {st with text_buffer := st.text_buffer ++ f, sent := st.sent ++ [f],
                   displayed := true}
         else st) := by rfl
    rw [h1, if_pos hf]

theorem chatBuildResult_msg_withText (st : AggState) (m : Json)
    (hm : st.final_message = some m) (hb : st.text_buffer ≠ []) :
    (chatBuildResult st).message = st.text_buffer := by
  unfold chatBuildResult
  rw [hm]
  dsimp only
  rw [if_neg hb, if_neg hb]

theorem chatBuildResult_msg (st : AggState) (m : Json)
    (hm : st.final_message = some m) (hb : st.text_buffer = []) :
    (chatBuildResult st).message = chatFinalFallbackSpec m := by
  unfold chatBuildResult chatFinalFallbackSpec
  rw [hm]
  dsimp only
  rw [hb]
  cases hx : extract_text_from_message m with
  | none => simp
  | some c => by_cases hc : c = [] <;> simp [hc]

/-- C7 counterexample: a `message` carried only by the SECOND choice is not
retained — the code consults `choices.first()` only — so the run returns an
empty message instead of "Hi" as the claim ("any choice") would require. -/
theorem C7_counterexample :
    stream_chat_model [c7CexBytes] = .ok ⟨[], [], false⟩ ∧
    ([] : Str) ≠ "Hi".toList :=
  ⟨by rfl, by decide⟩

/-- C7 (amended): under the delta-choice adapter it is the FIRST choice
whose `message` field (also re-stored when a `finish_reason` is present) is
retained; after the stream ends it fills the result text only if no text
was captured via deltas, trying in order direct content extraction, the
generic text-segment walk, and serialization of the whole message value
(`chatFinalFallbackSpec`); a delta-captured text suppresses all of these;
Scenario C is the byte-level instance. -/
theorem C7_final_message_fallback :
    (∀ m : Json, ∃ r, chatValueRun [chatMsgPayload m] = .ok r ∧
      r.message = chatFinalFallbackSpec m ∧ r.displayed = false) ∧
    (∀ (m : Json) (f : Str), f ≠ [] →
      ∃ r, chatValueRun [chatDeltaPayload f, chatMsgPayload m] = .ok r ∧
        r.message = f ∧ r.displayed = true) ∧
    stream_chat_model scenarioCBytes = .ok ⟨"Done.".toList, [], false⟩ := by
  refine ⟨?_, ?_, by rfl⟩
  · intro m
    refine ⟨chatBuildResult {(collectInto (chatMsgPayload m) initState) with
      final_message := some m}, by rfl, ?_, ?_⟩
    · exact chatBuildResult_msg _ m rfl rfl
    · rw [chatBuildResult_displayed]
      rfl
  · intro m f hf
    unfold chatValueRun
    simp only [List.foldl_cons, List.foldl_nil]
    have hinit : (if halted initState then initState
        else chatHandleJson initState (chatDeltaPayload f)) =
        chatHandleJson initState (chatDeltaPayload f) := by rfl
    rw [hinit, chatHandleJson_deltaPayload, if_pos hf]
    set s1 : AggState :=
      {initState with text_buffer := initState.text_buffer ++ f,
                      sent := initState.sent ++ [f], displayed := true} with hs1
    have hh : (if halted s1 then s1 else chatHandleJson s1 (chatMsgPayload m)) =
        chatHandleJson s1 (chatMsgPayload m) := by rfl
    rw [hh, chatHandleJson_msgPayload]
    refine ⟨_, by rfl, ?_, by rw [chatBuildResult_displayed]; rfl⟩
    refine (chatBuildResult_msg_withText _ m rfl ?_).trans ?_
    · exact hf
    · rfl

theorem C7_witness :
    ∃ r, chatValueRun [chatDeltaPayload ("Z".toList), chatMsgPayload .null] = .ok r ∧
      r.message = "Z".toList ∧ r.displayed = true :=
  C7_final_message_fallback.2.1 .null ("Z".toList) (by decide)

/-! ## Claim C8: a stored final response snapshot forces a non-empty message -/

theorem natToStrGo_ne_nil (fuel n : Nat) : natToStrGo (fuel + 1) n ≠ [] := by
  unfold natToStrGo
  split <;> simp

theorem intToStr_ne_nil (n : Int) : intToStr n ≠ [] := by
  unfold intToStr natToStr
  split
  · simp
  · exact natToStrGo_ne_nil _ _

theorem toStr_ne_nil (j : Json) : j.toStr ≠ [] := by
  cases j with
  | null => simp [Json.toStr]
  | bool b => cases b <;> simp [Json.toStr]
  | num n => simpa [Json.toStr] using intToStr_ne_nil n
  | str s => simp [Json.toStr, quoteStr]
  | arr xs => simp [Json.toStr]
  | obj fs => simp [Json.toStr]

theorem intercalate_cons_ne_nil (a : Str) (l : List Str) (ha : a ≠ []) :
    List.intercalate nl2 (a :: l) ≠ [] := by
  cases l with
  | nil => simpa [List.intercalate] using ha
  | cons b t => simp [List.intercalate, List.intersperse, nl2]

theorem extract_some_ne_nil (v : Json) (s : Str)
    (h : extract_text_from_response v = some s) : s ≠ [] := by
  cases hsegs : extract_text_segments_list v with
  | nil => simp [extract_text_from_response, hsegs] at h
  | cons a l =>
    have ha : a ≠ [] := segsAllNonempty v a (by rw [hsegs]; simp)
    simp only [extract_text_from_response, hsegs] at h
    split at h
    · cases h
    · cases h
      exact intercalate_cons_ne_nil a l ha

theorem ne_nil_of_trim_ne_nil (s : Str) (h : rustTrim s ≠ []) : s ≠ [] :=
  fun hs => h (by rw [hs]; rfl)

/-- C8: whenever the structured-event adapter has stored a final response
snapshot by the time the run finishes, the returned message is non-empty:
failed structured extraction and an empty generic segment walk fall back to
serializing the entire snapshot to JSON text. -/
theorem C8_snapshot_forces_nonempty_message (chunks : List (List Nat))
    (r : WebSearchResult) (hr : stream_responses chunks = .ok r)
    (hsnap : (respRunState chunks).final_response.isSome = true) :
    r.message ≠ [] := by
  unfold stream_responses runStream at hr
  dsimp only at hr
  split at hr
  · cases hr
  · cases hr
    obtain ⟨resp, hresp⟩ := Option.isSome_iff_exists.1 hsnap
    show (respBuildResult (respRunState chunks)).message ≠ []
    generalize respRunState chunks = st at hresp ⊢
    unfold respBuildResult
    rw [hresp]
    dsimp only
    by_cases hft : st.final_text ≠ []
    · simpa [hft] using fun hcon => hft hcon
    · simp only [hft, if_false]
      by_cases htb : rustTrim st.text_buffer ≠ []
      · have hb := ne_nil_of_trim_ne_nil _ htb
        simp [htb, hb]
      · simp only [htb, if_false]
        by_cases hpr : (parse_response_output resp st.citations st.seen).1 ≠ []
        · simp [hpr]
        · simp only [hpr, if_false]
          cases hex : extract_text_from_response resp with
          | some s =>
            have hs := extract_some_ne_nil resp s hex
            simp [hex, hs]
          | none =>
            cases hsegs : extract_text_segments_list resp with
            | nil => simpa [hex, hsegs] using toStr_ne_nil resp
            | cons a l =>
              have ha : a ≠ [] := segsAllNonempty resp a (by rw [hsegs]; simp)
              simpa [hex, hsegs] using intercalate_cons_ne_nil a l ha

theorem C8_witness :
    (⟨('{' :: ['}']), [], false⟩ : WebSearchResult).message ≠ [] :=
  C8_snapshot_forces_nonempty_message [c8SnapshotBytes]
    ⟨('{' :: ['}']), [], false⟩ (by rfl) (by rfl)

/-! ## Claim C4: citation dedup, first-seen order, first-title-wins -/

theorem dedupFold_append (xs ys : List (Str × Option Str)) :
    ∀ seen, dedupFold seen (xs ++ ys) =
      ((dedupFold seen xs).1 ++ (dedupFold (dedupFold seen xs).2 ys).1,
       (dedupFold (dedupFold seen xs).2 ys).2) := by
  induction xs with
  | nil => intro seen; simp [dedupFold]
  | cons o rest ih =>
    intro seen
    obtain ⟨u, t⟩ := o
    by_cases hmem : u ∈ seen
    · simp only [List.cons_append, dedupFold, hmem, if_pos]
      exact ih seen
    · simp only [List.cons_append, dedupFold, hmem, if_neg, not_false_iff, List.append_eq]
      rw [ih (seen ++ [u])]

mutual
theorem cc_refine : ∀ (v : Json) (cits : List Citation) (seen : List Str),
    collect_citations v cits seen =
      (cits ++ (dedupFold seen (citeOccs v)).1, (dedupFold seen (citeOccs v)).2)
  | .obj fs, cits, seen => by
    rw [collect_citations]
    cases hu : urlOf fs with
    | none =>
      dsimp only
      rw [ccf_refine fs cits seen]
      simp [citeOccs, hu]
    | some u =>
      dsimp only
      by_cases hmem : u ∈ seen
      · rw [if_pos hmem]
        dsimp only
        rw [ccf_refine fs cits seen]
        simp [citeOccs, hu, dedupFold, hmem]
      · rw [if_neg hmem]
        dsimp only
        rw [ccf_refine]
        simp [citeOccs, hu, dedupFold, hmem]
  | .arr xs, cits, seen => by
    rw [collect_citations]
    rw [ccl_refine xs cits seen]
    simp [citeOccs]
  | .null, cits, seen => by simp [collect_citations, citeOccs, dedupFold]
  | .bool _, cits, seen => by simp [collect_citations, citeOccs, dedupFold]
  | .num _, cits, seen => by simp [collect_citations, citeOccs, dedupFold]
  | .str _, cits, seen => by simp [collect_citations, citeOccs, dedupFold]
theorem ccl_refine : ∀ (xs : JsonList) (cits : List Citation) (seen : List Str),
    ccList xs cits seen =
      (cits ++ (dedupFold seen (citeOccsL xs)).1, (dedupFold seen (citeOccsL xs)).2)
  | .nil, cits, seen => by simp [ccList, citeOccsL, dedupFold]
  | .cons x tl, cits, seen => by
    rw [ccList]
    rw [cc_refine x cits seen, ccl_refine tl]
    simp [citeOccsL, dedupFold_append]
theorem ccf_refine : ∀ (fs : JsonFields) (cits : List Citation) (seen : List Str),
    ccFields fs cits seen =
      (cits ++ (dedupFold seen (citeOccsF fs)).1, (dedupFold seen (citeOccsF fs)).2)
  | .fnil, cits, seen => by simp [ccFields, citeOccsF, dedupFold]
  | .fcons k v tl, cits, seen => by
    rw [ccFields]
    rw [cc_refine v cits seen, ccf_refine tl]
    simp [citeOccsF, dedupFold_append]
end

theorem dedupFold_seen (occs : List (Str × Option Str)) :
    ∀ seen, (dedupFold seen occs).2 = seen ++ ((dedupFold seen occs).1).map Citation.url := by
  induction occs with
  | nil => intro seen; simp [dedupFold]
  | cons o rest ih =>
    intro seen
    obtain ⟨u, t⟩ := o
    by_cases hmem : u ∈ seen
    · simp only [dedupFold, hmem, if_pos]
      exact ih seen
    · simp only [dedupFold, hmem, if_neg, not_false_iff]
      rw [ih (seen ++ [u])]
      simp

theorem dedupFold_nodup (occs : List (Str × Option Str)) :
    ∀ seen, seen.Nodup → (dedupFold seen occs).2.Nodup := by
  induction occs with
  | nil => intro seen h; simpa [dedupFold] using h
  | cons o rest ih =>
    intro seen h
    obtain ⟨u, t⟩ := o
    by_cases hmem : u ∈ seen
    · simp only [dedupFold, hmem, if_pos]
      exact ih seen h
    · simp only [dedupFold, hmem, if_neg, not_false_iff]
      exact ih (seen ++ [u]) (by simp [List.nodup_append, h, hmem])

theorem collect_pair (v : Json) {c : List Citation} {s : List Str}
    (h : CInvPair (c, s)) : CInvPair (collect_citations v c s) := by
  rw [cc_refine]
  constructor
  · show (dedupFold s (citeOccs v)).2 = _
    rw [dedupFold_seen]
    have h1 : s = c.map Citation.url := h.1
    rw [h1]
    simp
  · have h1 : s = c.map Citation.url := h.1
    have h2 : s.Nodup := h.2
    exact dedupFold_nodup _ _ h2

theorem proParts_pair : ∀ (parts : List Json) (text : Str)
    (cits : List Citation) (seen : List Str), CInvPair (cits, seen) →
    CInvPair (proParts parts text cits seen).2
  | [], _, _, _, h => h
  | part :: rest, text, cits, seen, h => by
    rw [proParts]
    exact proParts_pair rest _ _ _ (collect_pair part h)

theorem proItems_pair : ∀ (items : List Json) (text : Str)
    (cits : List Citation) (seen : List Str), CInvPair (cits, seen) →
    CInvPair (proItems items text cits seen).2
  | [], _, _, _, h => h
  | item :: rest, text, cits, seen, h => by
    rw [proItems]
    split
    · split
      · exact proItems_pair rest _ _ _ (proParts_pair _ _ _ _ h)
      · exact proItems_pair rest _ _ _ h
    · exact proItems_pair rest _ _ _ h

theorem pro_pair (v : Json) {cits : List Citation} {seen : List Str}
    (h : CInvPair (cits, seen)) :
    CInvPair (parse_response_output v cits seen).2 := by
  unfold parse_response_output
  split
  · exact proItems_pair _ _ _ _ h
  · exact h

/-- The invariant lifted to an aggregation state. -/
abbrev CInv (st : AggState) : Prop := CInvPair (st.citations, st.seen)

theorem respHandleJson_cinv (st : AggState) (j : Json) (h : CInv st) :
    CInv (respHandleJson st j) := by
  unfold respHandleJson
  repeat' (first | split | dsimp only)
  all_goals
    repeat
      first
      | exact h
      | apply collect_pair
      | apply pro_pair

theorem pcdItems_cinv (items : List Json) (st : AggState) (h : CInv st) :
    CInv (pcdItems items st) := by
  induction items generalizing st with
  | nil => exact h
  | cons x rest ih =>
    unfold pcdItems at ih ⊢
    simp only [List.foldl_cons]
    exact ih _ (collect_pair _ h)

theorem pcd_cinv (d : Json) (st : AggState) (h : CInv st) :
    CInv (process_chat_delta d st) := by
  unfold process_chat_delta collectInto
  repeat' (first | split | dsimp only)
  all_goals
    repeat
      first
      | exact h
      | apply collect_pair
      | exact pcdItems_cinv _ _ h
      | apply pcdItems_cinv

theorem chatHandleJson_cinv (st : AggState) (j : Json) (h : CInv st) :
    CInv (chatHandleJson st j) := by
  unfold chatHandleJson collectInto
  repeat' (first | split | dsimp only)
  all_goals
    repeat
      first
      | exact h
      | apply collect_pair
      | apply pcd_cinv

theorem respHandlePayload_cinv (st : AggState) (p : Str) (h : CInv st) :
    CInv (respHandlePayload st p) := by
  unfold respHandlePayload
  split
  · exact h
  · exact respHandleJson_cinv _ _ h

theorem chatHandlePayload_cinv (st : AggState) (p : Str) (h : CInv st) :
    CInv (chatHandlePayload st p) := by
  unfold chatHandlePayload
  split
  · exact h
  · exact chatHandleJson_cinv _ _ h

theorem mkStep_cinv (handle : AggState → Str → AggState)
    (hh : ∀ st p, CInv st → CInv (handle st p)) (st : AggState) (ev : Str)
    (h : CInv st) : CInv (mkStep handle st ev) := by
  unfold mkStep
  split
  · exact h
  · dsimp only
    split
    · exact h
    · exact hh _ _ h
  · exact hh _ _ h

theorem drainGo_cinv (step : AggState → Str → AggState)
    (hstep : ∀ s ev, CInv s → CInv (step s ev)) :
    ∀ (fuel : Nat) (st : AggState) (c : Str), CInv st →
      CInv (drainGo step fuel st c).1 := by
  intro fuel
  induction fuel with
  | zero => intro st c h; exact h
  | succ n ih =>
    intro st c h
    rw [drainGo]
    split
    · exact h
    · dsimp only
      split
      · exact hstep _ _ h
      · exact ih _ _ (hstep _ _ h)

theorem runAgg_cinv (step : AggState → Str → AggState)
    (hstep : ∀ s ev, CInv s → CInv (step s ev)) (chunks : List (List Nat)) :
    CInv (runAgg step chunks).1 := by
  unfold runAgg
  suffices hgen : ∀ (p : AggState × Str), CInv p.1 →
      CInv (List.foldl (feedChunk step) p chunks).1 by
    exact hgen (initState, []) ⟨rfl, List.nodup_nil⟩
  induction chunks with
  | nil => intro p h; exact h
  | cons c rest ih =>
    intro p h
    simp only [List.foldl_cons]
    refine ih _ ?_
    unfold feedChunk feedPiece
    split
    · exact h
    · exact drainGo_cinv step hstep _ _ _ h

theorem respRunState_cinv (chunks : List (List Nat)) : CInv (respRunState chunks) := by
  unfold respRunState flushAgg
  have hstep := mkStep_cinv _ respHandlePayload_cinv
  split
  · exact runAgg_cinv respStep hstep chunks
  · exact hstep _ _ (runAgg_cinv respStep hstep chunks)

theorem chatRunState_cinv (chunks : List (List Nat)) : CInv (chatRunState chunks) := by
  unfold chatRunState flushAgg
  have hstep := mkStep_cinv _ chatHandlePayload_cinv
  split
  · exact runAgg_cinv chatStep hstep chunks
  · exact hstep _ _ (runAgg_cinv chatStep hstep chunks)

theorem CInvPair_nodup_urls {p : List Citation × List Str} (h : CInvPair p) :
    (p.1.map Citation.url).Nodup := h.1 ▸ h.2

theorem respBuildResult_nodup (st : AggState) (h : CInv st) :
    ((respBuildResult st).citations.map Citation.url).Nodup := by
  unfold respBuildResult
  repeat' (first | split | dsimp only)
  all_goals
    first
    | exact h.1 ▸ h.2
    | exact (collect_pair _ (pro_pair _ h)).1 ▸ (collect_pair _ (pro_pair _ h)).2

theorem chatBuildResult_nodup (st : AggState) (h : CInv st) :
    ((chatBuildResult st).citations.map Citation.url).Nodup := by
  unfold chatBuildResult
  repeat' (first | split | dsimp only)
  all_goals
    first
    | exact h.1 ▸ h.2
    | exact (collect_pair _ h).1 ▸ (collect_pair _ h).2

theorem collectMany_refine : ∀ (vs : List Json) (cs : List Citation) (seen : List Str),
    vs.foldl (fun p v => collect_citations v p.1 p.2) (cs, seen) =
      (cs ++ (dedupFold seen (vs.flatMap citeOccs)).1,
       (dedupFold seen (vs.flatMap citeOccs)).2) := by
  intro vs
  induction vs with
  | nil => intro cs seen; simp [dedupFold]
  | cons v rest ih =>
    intro cs seen
    simp only [List.foldl_cons]
    rw [cc_refine v cs seen]
    rw [ih]
    simp [dedupFold_append]

/-- C4: (i) at byte level, under either adapter, a successful run returns a
citation list with pairwise distinct URLs; (ii) harvesting any sequence of
payload values from a fresh state produces exactly the keep-first-by-URL
deduplication of the raw citation occurrences in walk order — so entries
appear in first-seen order and a later occurrence of a URL (even with a
different title) produces no entry and never overrides the first title. -/
theorem C4_citation_dedup_first_wins (chunks : List (List Nat)) (vs : List Json) :
    (∀ r, stream_responses chunks = .ok r → (r.citations.map Citation.url).Nodup) ∧
    (∀ r, stream_chat_model chunks = .ok r → (r.citations.map Citation.url).Nodup) ∧
    (collectManyCitations vs).1 = (dedupFold [] (vs.flatMap citeOccs)).1 := by
  refine ⟨?_, ?_, ?_⟩
  · intro r hr
    unfold stream_responses runStream at hr
    dsimp only at hr
    split at hr
    · cases hr
    · cases hr
      exact respBuildResult_nodup _ (respRunState_cinv chunks)
  · intro r hr
    unfold stream_chat_model runStream at hr
    dsimp only at hr
    split at hr
    · cases hr
    · cases hr
      exact chatBuildResult_nodup _ (chatRunState_cinv chunks)
  · unfold collectManyCitations
    rw [collectMany_refine]
    simp

theorem C4_witness :
    ((⟨[], [⟨"u".toList, some ("T".toList)⟩], false⟩ :
        WebSearchResult).citations.map Citation.url).Nodup :=
  (C4_citation_dedup_first_wins c4WitnessBytes []).1 _ (by rfl)

/-! ## Claim C1: chunk-boundary independence -/

theorem utf8Decode_ascii (x : Nat) (t : List Nat) (h1 : x ≤ 0x7F) :
    utf8Decode (x :: t) = Char.ofNat x :: utf8Decode t := by
  rw [utf8Decode.eq_def]
  simp [h1]

theorem utf8Decode_two (x c1 : Nat) (t : List Nat) (h1 : ¬ x ≤ 0x7F)
    (h2 : (0xC2 ≤ x && x ≤ 0xDF) = true) (hc : isCont c1 = true) :
    utf8Decode (x :: c1 :: t) =
      Char.ofNat ((x - 0xC0) * 64 + (c1 - 0x80)) :: utf8Decode t := by
  rw [utf8Decode.eq_def]
  simp [h1, h2, hc]

theorem utf8Decode_three (x c1 c2 : Nat) (t : List Nat) (h1 : ¬ x ≤ 0x7F)
    (h2 : ¬ (0xC2 ≤ x && x ≤ 0xDF) = true)
    (h3 : (0xE0 ≤ x && x ≤ 0xEF) = true)
    (h4 : (contLo x ≤ c1 && c1 ≤ contHi x) = true) (hc : isCont c2 = true) :
    utf8Decode (x :: c1 :: c2 :: t) =
      Char.ofNat ((x - 0xE0) * 4096 + (c1 - 0x80) * 64 + (c2 - 0x80)) ::
        utf8Decode t := by
  rw [utf8Decode.eq_def]
  simp [h1, h2, h3, h4, hc]

theorem utf8Decode_four (x c1 c2 c3 : Nat) (t : List Nat) (h1 : ¬ x ≤ 0x7F)
    (h2 : ¬ (0xC2 ≤ x && x ≤ 0xDF) = true)
    (h3 : ¬ (0xE0 ≤ x && x ≤ 0xEF) = true)
    (h5 : (0xF0 ≤ x && x ≤ 0xF4) = true)
    (h6 : (contLo x ≤ c1 && c1 ≤ contHi x) = true)
    (h7 : isCont c2 = true) (hc : isCont c3 = true) :
    utf8Decode (x :: c1 :: c2 :: c3 :: t) =
      Char.ofNat ((x - 0xF0) * 262144 + (c1 - 0x80) * 4096 +
        (c2 - 0x80) * 64 + (c3 - 0x80)) :: utf8Decode t := by
  rw [utf8Decode.eq_def]
  simp [h1, h2, h3, h5, h6, h7, hc]

theorem utf8Decode_append : ∀ (a b : List Nat), isValidUtf8 a = true →
    utf8Decode (a ++ b) = utf8Decode a ++ utf8Decode b
  | [], _, _ => by simp [utf8Decode]
  | x :: t, b, h => by
    rw [isValidUtf8.eq_def] at h
    dsimp only at h
    by_cases h1 : x ≤ 0x7F
    · rw [if_pos h1] at h
      rw [List.cons_append, utf8Decode_ascii x (t ++ b) h1, utf8Decode_ascii x t h1,
        utf8Decode_append t b h, List.cons_append]
    · rw [if_neg h1] at h
      by_cases h2 : (0xC2 ≤ x && x ≤ 0xDF) = true
      · rw [if_pos h2] at h
        cases t with
        | nil => simp at h
        | cons c1 r =>
          dsimp only at h
          rw [Bool.and_eq_true] at h
          obtain ⟨hc, hr⟩ := h
          rw [List.cons_append, List.cons_append,
            utf8Decode_two x c1 (r ++ b) h1 h2 hc, utf8Decode_two x c1 r h1 h2 hc,
            utf8Decode_append r b hr, List.cons_append]
      · rw [if_neg h2] at h
        by_cases h3 : (0xE0 ≤ x && x ≤ 0xEF) = true
        · rw [if_pos h3] at h
          cases t with
          | nil => simp at h
          | cons c1 r1 =>
            dsimp only at h
            by_cases h4 : (contLo x ≤ c1 && c1 ≤ contHi x) = true
            · rw [if_pos h4] at h
              cases r1 with
              | nil => simp at h
              | cons c2 r2 =>
                dsimp only at h
                rw [Bool.and_eq_true] at h
                obtain ⟨hc, hr⟩ := h
                rw [List.cons_append, List.cons_append, List.cons_append,
                  utf8Decode_three x c1 c2 (r2 ++ b) h1 h2 h3 h4 hc,
                  utf8Decode_three x c1 c2 r2 h1 h2 h3 h4 hc,
                  utf8Decode_append r2 b hr, List.cons_append]
            · rw [if_neg h4] at h
              simp at h
        · rw [if_neg h3] at h
          by_cases h5 : (0xF0 ≤ x && x ≤ 0xF4) = true
          · rw [if_pos h5] at h
            cases t with
            | nil => simp at h
            | cons c1 r1 =>
              dsimp only at h
              by_cases h6 : (contLo x ≤ c1 && c1 ≤ contHi x) = true
              · rw [if_pos h6] at h
                cases r1 with
                | nil => simp at h
                | cons c2 r2 =>
                  dsimp only at h
                  by_cases h7 : isCont c2 = true
                  · rw [if_pos h7] at h
                    cases r2 with
                    | nil => simp at h
                    | cons c3 r3 =>
                      dsimp only at h
                      rw [Bool.and_eq_true] at h
                      obtain ⟨hc, hr⟩ := h
                      rw [List.cons_append, List.cons_append, List.cons_append,
                        List.cons_append,
                        utf8Decode_four x c1 c2 c3 (r3 ++ b) h1 h2 h3 h5 h6 h7 hc,
                        utf8Decode_four x c1 c2 c3 r3 h1 h2 h3 h5 h6 h7 hc,
                        utf8Decode_append r3 b hr, List.cons_append]
                  · rw [if_neg h7] at h
                    simp at h
              · rw [if_neg h6] at h
                simp at h
          · rw [if_neg h5] at h
            simp at h

theorem replaceCRLF_single (a : Char) : replaceCRLF [a] = [a] := by
  rw [replaceCRLF.eq_def]
  by_cases ha : a = '\r' <;> simp [ha, replaceCRLF]

theorem replaceCRLF_crlf (t : Str) :
    replaceCRLF ('\r' :: '\n' :: t) = '\n' :: replaceCRLF t := by
  rw [replaceCRLF.eq_def]
  simp

theorem replaceCRLF_cons_cons (a b : Char) (t : Str) (hab : ¬(a = '\r' ∧ b = '\n')) :
    replaceCRLF (a :: b :: t) = a :: replaceCRLF (b :: t) := by
  rw [replaceCRLF.eq_def]
  by_cases ha : a = '\r'
  · have hb : ¬ b = '\n' := fun hb => hab ⟨ha, hb⟩
    simp [ha, hb]
  · simp [ha]

theorem replaceCRLF_append : ∀ (a b : Str),
    (a.getLast? = some '\r' → b.head? ≠ some '\n') →
    replaceCRLF (a ++ b) = replaceCRLF a ++ replaceCRLF b
  | [], b, _ => rfl
  | [x], b, h => by
    cases b with
    | nil => simp [replaceCRLF_single, replaceCRLF]
    | cons y b' =>
      have hcond : ¬(x = '\r' ∧ y = '\n') :=
        fun hc => (h (by simp [hc.1])) (by simp [hc.2])
      rw [List.singleton_append, replaceCRLF_cons_cons x y b' hcond,
        replaceCRLF_single]
      rfl
  | x :: y :: t, b, h => by
    by_cases hxy : x = '\r' ∧ y = '\n'
    · obtain ⟨hx, hy⟩ := hxy
      subst hx; subst hy
      simp only [List.cons_append]
      rw [replaceCRLF_crlf, replaceCRLF_crlf]
      cases t with
      | nil => rfl
      | cons z t' =>
        rw [replaceCRLF_append (z :: t') b
          (fun hl => h (by
            rw [List.getLast?_cons_cons, List.getLast?_cons_cons]
            exact hl))]
        rfl
    · simp only [List.cons_append]
      rw [replaceCRLF_cons_cons x y (t ++ b) hxy, replaceCRLF_cons_cons x y t hxy]
      rw [List.cons_append]
      have hrec := replaceCRLF_append (y :: t) b
        (fun hl => h (by rw [List.getLast?_cons_cons]; exact hl))
      rw [List.cons_append] at hrec
      rw [hrec]

theorem replaceCRLF_flatten : ∀ (ps : List Str), (∀ p ∈ ps, p ≠ []) →
    crlfSafe ps = true → replaceCRLF ps.flatten = (ps.map replaceCRLF).flatten
  | [], _, _ => rfl
  | [p], _, _ => by simp
  | p :: q :: r, hne, hsafe => by
    rw [crlfSafe] at hsafe
    simp only [Bool.and_eq_true, Bool.not_eq_true', Bool.and_eq_false_iff,
      beq_eq_false_iff_ne, ne_eq] at hsafe
    obtain ⟨hcond, hrest⟩ := hsafe
    have hq : q ≠ [] := hne q (by simp)
    simp only [List.flatten_cons]
    rw [replaceCRLF_append p (q ++ r.flatten) ?hc]
    case hc =>
      intro hl hhead
      rw [List.head?_append] at hhead
      cases hq' : q.head? with
      | none => exact hq (List.head?_eq_none_iff.1 hq')
      | some z =>
        rw [hq'] at hhead
        simp at hhead
        rcases hcond with hc1 | hc2
        · exact hc1 (by simpa using hl)
        · rw [hhead] at hq'
          exact hc2 (by simpa using hq')
    have hrec := replaceCRLF_flatten (q :: r) (fun x hx => hne x (by simp [hx])) hrest
    simp only [List.flatten_cons] at hrec
    rw [hrec]
    simp [List.flatten_cons]

theorem utf8Decode_ne_nil (x : Nat) (t : List Nat) :
    utf8Decode (x :: t) ≠ [] := by
  rw [utf8Decode.eq_def]
  dsimp only
  repeat' split
  all_goals simp

theorem utf8Decode_flatten : ∀ (chunks : List (List Nat)),
    (∀ c ∈ chunks, isValidUtf8 c = true) →
    utf8Decode chunks.flatten = (chunks.map utf8Decode).flatten := by
  intro chunks
  induction chunks with
  | nil => intro _; rfl
  | cons c rest ih =>
    intro hv
    simp only [List.flatten_cons, List.map_cons]
    rw [utf8Decode_append c rest.flatten (hv c (by simp))]
    rw [ih (fun x hx => hv x (by simp [hx]))]

theorem splitNN_append (c : Str) : ∀ (e r b : Str), splitNN c = some (e, r) →
    splitNN (c ++ b) = some (e, r ++ b) := by
  induction c with
  | nil => intro e r b h; simp [splitNN] at h
  | cons a t ih =>
    intro e r b h
    rw [splitNN_cons] at h
    rw [List.cons_append, splitNN_cons]
    split at h
    · rename_i hc
      cases t with
      | nil => simp at hc
      | cons y t' =>
        simp only [Option.some.injEq, Prod.mk.injEq] at h
        obtain ⟨he, hr⟩ := h
        subst he; subst hr
        rw [if_pos (by simpa [List.cons_append] using hc)]
        simp [List.cons_append]
    · rename_i hc
      cases hsp : splitNN t with
      | none => rw [hsp] at h; simp at h
      | some p =>
        rw [hsp] at h
        simp only [Option.map_some', Option.some.injEq] at h
        obtain ⟨he, hr⟩ := Prod.mk.injEq .. ▸ h
        have ht : t ≠ [] := by
          intro hte
          rw [hte] at hsp
          simp [splitNN] at hsp
        have hcnd : ¬(a = '\n' ∧ (t ++ b).head? = some '\n') := by
          intro ⟨h1, h2⟩
          refine hc ⟨h1, ?_⟩
          cases t with
          | nil => exact absurd rfl ht
          | cons z t2 => simpa using h2
        rw [if_neg hcnd, ih p.1 p.2 b (by rw [hsp])]
        simp only [Option.map_some', Option.some.injEq]
        subst he; subst hr
        simp

theorem drainGo_noSplit (step : AggState → Str → AggState) (st : AggState)
    (c : Str) (h : splitNN c = none) :
    ∀ fuel, drainGo step fuel st c = (st, c)
  | 0 => rfl
  | fuel + 1 => by rw [drainGo, h]

theorem drainGo_fuel (step : AggState → Str → AggState) :
    ∀ (f1 : Nat) (st : AggState) (c : Str) (f2 : Nat), c.length ≤ f1 →
      c.length ≤ f2 → drainGo step f1 st c = drainGo step f2 st c := by
  intro f1
  induction f1 with
  | zero =>
    intro st c f2 h1 _
    have hc : c = [] := List.length_eq_zero.1 (Nat.le_zero.1 h1)
    subst hc
    rw [drainGo_noSplit step st [] rfl, drainGo_noSplit step st [] rfl]
  | succ n ih =>
    intro st c f2 h1 h2
    cases hsp : splitNN c with
    | none => rw [drainGo_noSplit step st c hsp, drainGo_noSplit step st c hsp]
    | some p =>
      obtain ⟨ev, rest⟩ := p
      have hlen := splitNN_len c ev rest hsp
      cases f2 with
      | zero => omega
      | succ m =>
        rw [drainGo, drainGo, hsp]
        dsimp only
        split
        · rfl
        · exact ih _ rest m (by omega) (by omega)

theorem drainGo_exit_noSplit (step : AggState → Str → AggState) :
    ∀ (fuel : Nat) (st : AggState) (c : Str), c.length ≤ fuel →
      halted (drainGo step fuel st c).1 = false →
      splitNN (drainGo step fuel st c).2 = none := by
  intro fuel
  induction fuel with
  | zero =>
    intro st c h1 _
    have hc : c = [] := List.length_eq_zero.1 (Nat.le_zero.1 h1)
    subst hc
    rfl
  | succ n ih =>
    intro st c h1 hh
    rw [drainGo] at hh ⊢
    cases hsp : splitNN c with
    | none => exact hsp
    | some p =>
      obtain ⟨ev, rest⟩ := p
      have hlen := splitNN_len c ev rest hsp
      rw [hsp] at hh
      dsimp only at hh
      dsimp only
      by_cases hhalt : halted (step st ev) = true
      · rw [if_pos hhalt] at hh
        dsimp only at hh
        rw [hh] at hhalt
        cases hhalt
      · rw [if_neg hhalt] at hh ⊢
        exact ih _ rest (by omega) hh

theorem drainGo_append (step : AggState → Str → AggState) :
    ∀ (fuel : Nat) (c : Str) (st : AggState) (b : Str), c.length ≤ fuel →
      halted st = false →
      drainGo step (fuel + b.length) st (c ++ b) =
        (if halted (drainGo step fuel st c).1 = true
         then ((drainGo step fuel st c).1, (drainGo step fuel st c).2 ++ b)
         else drainCarry step (drainGo step fuel st c).1
           ((drainGo step fuel st c).2 ++ b)) := by
  intro fuel
  induction fuel with
  | zero =>
    intro c st b h1 hh
    have hc : c = [] := List.length_eq_zero.1 (Nat.le_zero.1 h1)
    subst hc
    simp only [List.nil_append, Nat.zero_add, drainGo, hh, Bool.false_eq_true,
      if_false]
    unfold drainCarry
    rfl
  | succ n ih =>
    intro c st b h1 hh
    cases hsp : splitNN c with
    | none =>
      rw [drainGo_noSplit step st c hsp]
      simp only [hh, Bool.false_eq_true, if_false]
      unfold drainCarry
      rw [drainGo_fuel step (n + 1 + b.length) st (c ++ b) (c ++ b).length
        (by simp; omega) (by omega)]
    | some p =>
      obtain ⟨ev, rest⟩ := p
      have hlen := splitNN_len c ev rest hsp
      have hstep : n + 1 + b.length = (n + b.length) + 1 := by omega
      rw [hstep, drainGo, splitNN_append c ev rest b hsp]
      rw [drainGo, hsp]
      dsimp only
      split
      · rfl
      · rename_i hhalt
        rw [ih rest _ b (by omega) (by simpa using hhalt)]

theorem drainCarry_append (step : AggState → Str → AggState) (st : AggState)
    (c b : Str) (hh : halted st = false) :
    drainCarry step st (c ++ b) =
      (if halted (drainCarry step st c).1 = true
       then ((drainCarry step st c).1, (drainCarry step st c).2 ++ b)
       else drainCarry step (drainCarry step st c).1
         ((drainCarry step st c).2 ++ b)) := by
  unfold drainCarry
  rw [drainGo_fuel step (c ++ b).length st (c ++ b) (c.length + b.length)
    (by rfl) (by simp)]
  exact drainGo_append step c.length c st b (by rfl) hh

theorem foldl_feedPiece_halted (step : AggState → Str → AggState)
    (p : AggState × Str) (hp : halted p.1 = true) (ps : List Str) :
    ps.foldl (feedPiece step) p = p := by
  induction ps with
  | nil => rfl
  | cons q rest ih =>
    simp only [List.foldl_cons, feedPiece, hp, if_pos]
    exact ih

theorem feed_concat (step : AggState → Str → AggState) :
    ∀ (ps : List Str) (p : AggState × Str), halted p.1 = false →
      splitNN p.2 = none →
      ∃ suf, feedPiece step p ps.flatten =
          ((ps.foldl (feedPiece step) p).1, (ps.foldl (feedPiece step) p).2 ++ suf) ∧
        (halted (ps.foldl (feedPiece step) p).1 = false → suf = [])
  | [], p, hhalt, hsp => by
    refine ⟨[], ?_, fun _ => rfl⟩
    simp only [List.flatten_nil, List.foldl_nil, feedPiece, hhalt,
      Bool.false_eq_true, if_false, List.append_nil]
    unfold drainCarry
    rw [drainGo_noSplit step p.1 p.2 hsp]
  | q :: rest, p, hhalt, hsp => by
    simp only [List.flatten_cons, List.foldl_cons]
    have hfq : feedPiece step p q = drainCarry step p.1 (p.2 ++ q) := by
      simp [feedPiece, hhalt]
    have hmain : feedPiece step p (q ++ rest.flatten) =
        drainCarry step p.1 ((p.2 ++ q) ++ rest.flatten) := by
      simp [feedPiece, hhalt, List.append_assoc]
    rw [hmain, drainCarry_append step p.1 (p.2 ++ q) rest.flatten hhalt]
    by_cases hy : halted (drainCarry step p.1 (p.2 ++ q)).1 = true
    · rw [if_pos hy]
      rw [foldl_feedPiece_halted step _ (by rw [hfq]; exact hy)]
      refine ⟨rest.flatten, ?_, ?_⟩
      · rw [hfq]
      · intro hcon
        rw [hfq] at hcon
        rw [hcon] at hy
        cases hy
    · rw [if_neg hy]
      have hy' : halted (feedPiece step p q).1 = false := by
        rw [hfq]
        exact Bool.not_eq_true _ ▸ hy
      have hsp' : splitNN (feedPiece step p q).2 = none := by
        rw [hfq]
        unfold drainCarry
        exact drainGo_exit_noSplit step _ _ _ (le_refl _) (by
          rw [hfq] at hy'
          exact hy')
      obtain ⟨suf, hfeed, hsuf⟩ := feed_concat step rest (feedPiece step p q) hy' hsp'
      refine ⟨suf, ?_, hsuf⟩
      rw [← hfeed]
      simp [feedPiece, hhalt, hy]

theorem rustTrim_eq_nil_iff (s : Str) :
    rustTrim s = [] ↔ ∀ c ∈ s, isRustWhitespace c = true := by
  unfold rustTrim
  rw [List.reverse_eq_nil_iff, List.dropWhile_eq_nil_iff]
  constructor
  · intro h c hc
    rcases List.mem_append.1
        ((List.takeWhile_append_dropWhile (p := isRustWhitespace) (l := s)) ▸ hc)
      with h1 | h2
    · exact List.mem_takeWhile_imp h1
    · exact h c (List.mem_reverse.2 h2)
  · intro h c hc
    exact h c ((List.dropWhile_sublist _).subset (List.mem_reverse.1 hc))

theorem rustTrim_append_left (x y : Str) (h : rustTrim (x ++ y) = []) :
    rustTrim x = [] := by
  rw [rustTrim_eq_nil_iff] at h ⊢
  intro c hc
  exact h c (List.mem_append_left y hc)

/-- Chunking invariance of a whole aggregation run, generic in the adapter:
if every chunk is nonempty valid UTF-8, no chunk boundary separates a
carriage return from a line feed, and (when the run ends via the sentinel)
nothing but whitespace follows the sentinel block, the chunked run equals
the single-chunk run on the concatenated bytes. -/
theorem runStream_chunking (step : AggState → Str → AggState)
    (build : AggState → WebSearchResult) (chunks : List (List Nat))
    (hv : ∀ c ∈ chunks, c ≠ [] ∧ isValidUtf8 c = true)
    (hcrlf : crlfSafe (chunks.map utf8Decode) = true)
    (hdone : (runAgg step [chunks.flatten]).1.done = true →
      rustTrim (runAgg step [chunks.flatten]).2 = []) :
    runStream step build chunks = runStream step build [chunks.flatten] := by
  have hdec : decPiece chunks.flatten = (chunks.map decPiece).flatten := by
    unfold decPiece
    rw [utf8Decode_flatten chunks (fun c hc => (hv c hc).2)]
    rw [replaceCRLF_flatten (chunks.map utf8Decode)
      (fun p hp => by
        obtain ⟨c, hc, rfl⟩ := List.mem_map.1 hp
        cases c with
        | nil => exact absurd rfl (hv _ hc).1
        | cons x t => exact utf8Decode_ne_nil x t)
      hcrlf]
    rw [List.map_map]
    rfl
  have hM : runAgg step chunks =
      (chunks.map decPiece).foldl (feedPiece step) (initState, []) := by
    unfold runAgg feedChunk
    rw [List.foldl_map]
    rfl
  have hsingle : runAgg step [chunks.flatten] =
      feedPiece step (initState, []) ((chunks.map decPiece).flatten) := by
    unfold runAgg feedChunk
    simp only [List.foldl_cons, List.foldl_nil]
    rw [← hdec]
    rfl
  obtain ⟨suf, hfeed, hsuf⟩ :=
    feed_concat step (chunks.map decPiece) (initState, []) rfl rfl
  set M := (chunks.map decPiece).foldl (feedPiece step) (initState, []) with hMdef
  have hda : runAgg step [chunks.flatten] = (M.1, M.2 ++ suf) := by
    rw [hsingle]; exact hfeed
  rw [hda] at hdone
  unfold runStream
  rw [hM, hda]
  dsimp only
  cases herr : M.1.err with
  | some e => rfl
  | none =>
    by_cases hhalt : halted M.1 = true
    · have hdone1 : M.1.done = true := by
        unfold halted at hhalt
        rw [herr] at hhalt
        simpa using hhalt
      have hfl : rustTrim (M.2 ++ suf) = [] := hdone hdone1
      have hM2 : rustTrim M.2 = [] := rustTrim_append_left M.2 suf hfl
      simp [flushAgg, hfl, hM2]
    · have hsuf' : suf = [] := hsuf (by
        cases hb : halted M.1 with
        | false => rfl
        | true => exact absurd hb hhalt)
      rw [hsuf', List.append_nil]

/-- C1 (counterexample): chunk boundaries are NOT transparent in general.
`c1WholeBytes` is a single delta event carrying the three-byte character
`あ` followed by the sentinel; split exactly after the character's lead
byte (`c1Chunk1 ++ c1Chunk2 = c1WholeBytes`), each half is decoded by
`from_utf8_lossy` on its own, so the character becomes three U+FFFD
replacement characters and the aggregated message differs from the
single-chunk run's. -/
theorem C1_counterexample :
    c1Chunk1 ++ c1Chunk2 = c1WholeBytes ∧
      stream_responses [c1Chunk1, c1Chunk2] ≠ stream_responses [c1WholeBytes] := by
  constructor
  · exact List.take_append_drop c1SplitAt c1WholeBytes
  · have h1 : stream_responses [c1WholeBytes] =
        .ok ⟨['あ'], [], true⟩ := by rfl
    have h2 : stream_responses [c1Chunk1, c1Chunk2] =
        .ok ⟨[fffd, fffd, fffd], [], true⟩ := by rfl
    rw [h1, h2]
    intro h
    have hw := Except.ok.inj h
    have hm : ([fffd, fffd, fffd] : Str) = ['あ'] :=
      congrArg WebSearchResult.message hw
    simp at hm

/-- C1 (amended): chunk-boundary independence holds for both adapters under
the conditions the code actually guarantees nothing about per chunk: every
chunk is nonempty and valid UTF-8 on its own (no mid-character split — a
split inside a multi-byte character is mangled by the per-chunk
`from_utf8_lossy`, see the counterexample), no chunk boundary separates a
carriage return from a following line feed (a split there defeats the
per-chunk `replace("\r\n", "\n")`), and when the run completes via the
`[DONE]` sentinel only whitespace follows the sentinel block (trailing
events behind the sentinel reach the final flush in the single-chunk run
but are never read in a chunked run that halts earlier). JSON payloads and
event blocks may still be split arbitrarily across chunk boundaries. -/
theorem C1_chunk_boundary_independence (chunks : List (List Nat))
    (hv : ∀ c ∈ chunks, c ≠ [] ∧ isValidUtf8 c = true)
    (hcrlf : crlfSafe (chunks.map utf8Decode) = true)
    (hdoneR : (runAgg respStep [chunks.flatten]).1.done = true →
      rustTrim (runAgg respStep [chunks.flatten]).2 = [])
    (hdoneC : (runAgg chatStep [chunks.flatten]).1.done = true →
      rustTrim (runAgg chatStep [chunks.flatten]).2 = []) :
    stream_responses chunks = stream_responses [chunks.flatten] ∧
      stream_chat_model chunks = stream_chat_model [chunks.flatten] :=
  ⟨runStream_chunking respStep respBuildResult chunks hv hcrlf hdoneR,
   runStream_chunking chatStep chatBuildResult chunks hv hcrlf hdoneC⟩

/-- C1 (witness): the amended theorem applied to a concrete two-chunk split
that cuts a JSON payload mid-key but respects every hypothesis. -/
theorem C1_witness :
    stream_responses c1WitChunks = stream_responses [c1WitChunks.flatten] ∧
      stream_chat_model c1WitChunks = stream_chat_model [c1WitChunks.flatten] :=
  C1_chunk_boundary_independence c1WitChunks (by decide) (by rfl)
    (fun _ => rfl) (fun _ => rfl)

end Ferrite
